import Mathlib

/-!
Verification development for the browseagent/mcp bridge.

The definitions below are a shallow embedding of the JavaScript sources:
  * `src/tools/ToolRegistry.js` (tool catalog and pure argument validation),
  * `src/server/MCPServer.js` (the MCP protocol handler `MCPServer` and the
    `ExtensionBridge` request-correlation logic),
  * `src/server/transports/StdioTransport.js` (length-prefixed framing),
  * the `ExtensionBridge` revision with the pending-connection handshake
    state machine (`pendingConnections`, handshake timers).

JavaScript values are modelled by the inductive `Value`; JS numbers are
modelled by rationals (`ℚ`), which is faithful for the order comparisons and
equalities the code performs (no NaN/Infinity arises in the modelled paths).
Stateful, event-driven code (the extension bridge) is modelled as explicit
step functions on state types, with event traces and a validity predicate.
-/

namespace BrowseAgent

/-! ## JSON-like values -/

inductive Value where
  | vnull
  | vbool (b : Bool)
  | vnum  (q : ℚ)
  | vstr  (s : String)
  | varr  (elems : List Value)
  | vobj  (fields : List (String × Value))
  deriving Repr

mutual

/-- Equality of JSON values (models JS `===` / SameValueZero on the values
the code compares; used for `Array.prototype.includes` in enum checks). -/
def Value.beq : Value → Value → Bool
  | .vnull, .vnull => true
  | .vbool a, .vbool b => a == b
  | .vnum a, .vnum b => a == b
  | .vstr a, .vstr b => a == b
  | .varr as, .varr bs => Value.beqList as bs
  | .vobj fs, .vobj gs => Value.beqFields fs gs
  | _, _ => false

def Value.beqList : List Value → List Value → Bool
  | [], [] => true
  | a :: as, b :: bs => Value.beq a b && Value.beqList as bs
  | _, _ => false

def Value.beqFields : List (String × Value) → List (String × Value) → Bool
  | [], [] => true
  | (k, a) :: fs, (l, b) :: gs => k == l && Value.beq a b && Value.beqFields fs gs
  | _, _ => false

end

/-- JS truthiness (`if (x)`).  `vnull` stands for both `null` and `undefined`
where the distinction does not matter; lookups that can yield `undefined`
return `Option Value` with `none` for `undefined`. -/
def Value.truthy : Value → Bool
  | .vnull => false
  | .vbool b => b
  | .vnum q => q != 0
  | .vstr s => s != ""
  | .varr _ => true
  | .vobj _ => true

/-- JS `typeof` (note `typeof null === "object"` and arrays are objects). -/
def Value.jsTypeof : Value → String
  | .vnull => "object"
  | .vbool _ => "boolean"
  | .vnum _ => "number"
  | .vstr _ => "string"
  | .varr _ => "object"
  | .vobj _ => "object"

def Value.isArray : Value → Bool
  | .varr _ => true
  | _ => false

/-- Property lookup on an object value: `v[key]`, `none` = `undefined`.
Non-objects have none of the properties the code reads. -/
def Value.getField : Value → String → Option Value
  | .vobj fields, key => (fields.find? (fun kv => kv.1 == key)).map (·.2)
  | _, _ => none

/-- Truthiness of `v.content`-style accesses: `undefined` is falsy. -/
def Value.truthyField (v : Value) (key : String) : Bool :=
  match v.getField key with
  | some w => w.truthy
  | none => false

/-- Presence of a property (`key in obj` / `hasOwnProperty`). -/
def Value.hasField (v : Value) (key : String) : Bool :=
  match v.getField key with
  | some _ => true
  | none => false

/-! ## Tool catalog (`src/tools/ToolRegistry.js`) -/

/-- One throw site of the validation code, mirrored as a structured error
(the JS throws `Error` with an interpolated message; the constructor
identifies the throw site and carries the data interpolated into it). -/
inductive VErr where
  | unknownTool (name : String)
  | missingField (field : String)
  | typeMismatch (key : String) (expected : String)
  | belowMinimum (key : String) (min : ℚ)
  | aboveMaximum (key : String) (max : ℚ)
  | tooShort (key : String) (minLength : Nat)
  | tooLong (key : String) (maxLength : Nat)
  | patternMismatch (key : String)
  | enumViolation (key : String)
  deriving Repr, DecidableEq

/-- One property schema of a tool's `inputSchema.properties`. -/
structure PropSchema where
  type : Option String := none
  description : String := ""
  minimum : Option ℚ := none
  maximum : Option ℚ := none
  minLength : Option Nat := none
  maxLength : Option Nat := none
  pattern : Option (String → Bool) := none
  enum : Option (List Value) := none
  defaultVal : Option Value := none

structure InputSchema where
  properties : List (String × PropSchema) := []
  required : List String := []

structure Tool where
  name : String
  description : String
  inputSchema : InputSchema

def numProp (d : String) : PropSchema := { type := some "number", description := d }
def strProp (d : String) : PropSchema := { type := some "string", description := d }
def boolProp (d : String) (dflt : Bool) : PropSchema :=
  { type := some "boolean", description := d, defaultVal := some (.vbool dflt) }

/-- `MCP_TOOLS` from `ToolRegistry.js`, key order preserved. -/
def MCP_TOOLS : List (String × Tool) :=
  [ ("browser_navigate",
     { name := "browser_navigate",
       description := "Navigate to a URL in a new or existing tab",
       inputSchema :=
         { properties :=
             [ ("url", strProp "The URL to navigate to"),
               ("tabId", numProp "Existing tab ID (optional)") ],
           required := ["url"] } }),
    ("browser_go_back",
     { name := "browser_go_back",
       description := "Go back to the previous page",
       inputSchema :=
         { properties :=
             [ ("tabId", numProp "Tab ID (optional, uses active tab if not provided)") ] } }),
    ("browser_go_forward",
     { name := "browser_go_forward",
       description := "Go forward to the next page",
       inputSchema :=
         { properties :=
             [ ("tabId", numProp "Tab ID (optional, uses active tab if not provided)") ] } }),
    ("browser_wait",
     { name := "browser_wait",
       description := "Wait for a specified time in seconds",
       inputSchema :=
         { properties :=
             [ ("time",
                { type := some "number",
                  description := "The time to wait in seconds",
                  minimum := some (1/10),
                  maximum := some 30 }) ],
           required := ["time"] } }),
    ("browser_press_key",
     { name := "browser_press_key",
       description := "Press a key on the keyboard",
       inputSchema :=
         { properties :=
             [ ("key", strProp "Name of the key to press or a character to generate"),
               ("tabId", numProp "Tab ID (optional, uses active tab if not provided)") ],
           required := ["key"] } }),
    ("browser_snapshot",
     { name := "browser_snapshot",
       description := "Capture accessibility snapshot of the current page. Use this for getting references to elements to interact with.",
       inputSchema :=
         { properties :=
             [ ("tabId", numProp "Tab ID (optional, uses active tab if not provided)") ] } }),
    ("browser_click",
     { name := "browser_click",
       description := "Perform click on a web page",
       inputSchema :=
         { properties :=
             [ ("element", strProp "Human-readable element description used to obtain permission to interact with the element"),
               ("ref", strProp "Exact target element reference from the page snapshot"),
               ("tabId", numProp "Tab ID (optional, uses active tab if not provided)") ],
           required := ["element", "ref"] } }),
    ("browser_drag_drop",
     { name := "browser_drag_drop",
       description := "Perform drag and drop between two elements",
       inputSchema :=
         { properties :=
             [ ("sourceElement", strProp "Human-readable description of the source element"),
               ("sourceRef", strProp "Source element reference from the page snapshot"),
               ("targetElement", strProp "Human-readable description of the target element"),
               ("targetRef", strProp "Target element reference from the page snapshot"),
               ("tabId", numProp "Tab ID (optional, uses active tab if not provided)") ],
           required := ["sourceElement", "sourceRef", "targetElement", "targetRef"] } }),
    ("browser_hover",
     { name := "browser_hover",
       description := "Hover over element on page",
       inputSchema :=
         { properties :=
             [ ("element", strProp "Human-readable element description used to obtain permission to interact with the element"),
               ("ref", strProp "Exact target element reference from the page snapshot"),
               ("tabId", numProp "Tab ID (optional, uses active tab if not provided)") ],
           required := ["element", "ref"] } }),
    ("browser_type",
     { name := "browser_type",
       description := "Type text into editable element",
       inputSchema :=
         { properties :=
             [ ("element", strProp "Human-readable element description used to obtain permission to interact with the element"),
               ("ref", strProp "Exact target element reference from the page snapshot"),
               ("text", strProp "Text to type into the element"),
               ("submit", boolProp "Whether to submit entered text (press Enter after)" false),
               ("tabId", numProp "Tab ID (optional, uses active tab if not provided)") ],
           required := ["element", "ref", "text"] } }),
    ("browser_get_console_logs",
     { name := "browser_get_console_logs",
       description := "Get the console logs from the browser",
       inputSchema :=
         { properties :=
             [ ("tabId", numProp "Tab ID (optional, uses active tab if not provided)") ] } }),
    ("browser_screenshot",
     { name := "browser_screenshot",
       description := "Take a screenshot of the current page",
       inputSchema :=
         { properties :=
             [ ("tabId", numProp "Tab ID (optional, uses active tab if not provided)"),
               ("fullPage", boolProp "Whether to capture the full page" false),
               ("element", strProp "Human-readable element description (optional)"),
               ("ref", strProp "Element reference to screenshot (optional)") ] } }) ]

/-- `MCP_TOOLS[name]` (JS property access on the registry object). -/
def lookupTool (name : String) : Option Tool :=
  (MCP_TOOLS.find? (fun kv => kv.1 == name)).map (·.2)

def lookupProp (props : List (String × PropSchema)) (key : String) : Option PropSchema :=
  (props.find? (fun kv => kv.1 == key)).map (·.2)

/-- `key in args` for the argument object. -/
def hasKey (args : List (String × Value)) (key : String) : Bool :=
  args.any (fun kv => kv.1 == key)

/-- `validateProperty(key, value, schema)` from `ToolRegistry.js`: type check,
then numeric bounds, string constraints and enum membership. -/
def validateProperty (key : String) (v : Value) (schema : PropSchema) :
    Except VErr Unit := do
  -- Type validation
  (match schema.type with
   | none => pure ()
   | some t =>
     if t == "number" && v.jsTypeof != "number" then
       throw (.typeMismatch key "number")
     else if t == "string" && v.jsTypeof != "string" then
       throw (.typeMismatch key "string")
     else if t == "boolean" && v.jsTypeof != "boolean" then
       throw (.typeMismatch key "boolean")
     else if t == "array" && !v.isArray then
       throw (.typeMismatch key "array")
     else if t == "object" && (v.jsTypeof != "object" || v.isArray) then
       throw (.typeMismatch key "object")
     else pure ())
  -- Number constraints (guarded by the declared type, as in the source)
  (match schema.type, v with
   | some "number", .vnum q => do
     (match schema.minimum with
      | some m => if q < m then throw (.belowMinimum key m) else pure ()
      | none => pure ())
     (match schema.maximum with
      | some m => if m < q then throw (.aboveMaximum key m) else pure ()
      | none => pure ())
   | _, _ => pure ())
  -- String constraints (value.length is the JS string length)
  (match schema.type, v with
   | some "string", .vstr s => do
     (match schema.minLength with
      | some n => if s.length < n then throw (.tooShort key n) else pure ()
      | none => pure ())
     (match schema.maxLength with
      | some n => if n < s.length then throw (.tooLong key n) else pure ()
      | none => pure ())
     (match schema.pattern with
      | some p => if !(p s) then throw (.patternMismatch key) else pure ()
      | none => pure ())
   | _, _ => pure ())
  -- Enum validation
  (match schema.enum with
   | some es =>
     if !(es.any (fun e => Value.beq e v)) then throw (.enumViolation key)
     else pure ()
   | none => pure ())

/-- The `required` loop of `validateToolArgs`. -/
def checkRequired (args : List (String × Value)) : List String → Except VErr Unit
  | [] => pure ()
  | field :: rest =>
    if !(hasKey args field) then throw (.missingField field)
    else checkRequired args rest

/-- The `Object.entries(args)` loop of `validateToolArgs`. -/
def checkProps (props : List (String × PropSchema)) :
    List (String × Value) → Except VErr Unit
  | [] => pure ()
  | kv :: rest => do
    (match lookupProp props kv.1 with
     | some propSchema => validateProperty kv.1 kv.2 propSchema
     | none => pure ())
    checkProps props rest

/-- `validateToolArgs(toolName, args)` from `ToolRegistry.js` (the pure
catalog validator; returns `true` in JS, modelled as `Except`). -/
def validateToolArgs (toolName : String) (args : List (String × Value)) :
    Except VErr Unit := do
  match lookupTool toolName with
  | none => throw (.unknownTool toolName)
  | some tool => do
    checkRequired args tool.inputSchema.required
    checkProps tool.inputSchema.properties args

/-! ## The protocol handler's own validator (`MCPServer.validateToolArguments`)

Unlike the registry validator it performs only the required-field check and
primitive *type* checks — no numeric bounds, string or enum constraints. -/

/-- The type-check loop of `MCPServer.validateToolArguments`. -/
def serverCheckTypes (props : List (String × PropSchema)) :
    List (String × Value) → Except VErr Unit
  | [] => pure ()
  | kv :: rest => do
    (match lookupProp props kv.1 with
     | some propSchema =>
       match propSchema.type with
       | some t =>
         if t == "number" && kv.2.jsTypeof != "number" then
           throw (.typeMismatch kv.1 "number")
         else if t == "string" && kv.2.jsTypeof != "string" then
           throw (.typeMismatch kv.1 "string")
         else if t == "boolean" && kv.2.jsTypeof != "boolean" then
           throw (.typeMismatch kv.1 "boolean")
         else pure ()
       | none => pure ()
     | none => pure ())
    serverCheckTypes props rest

/-- `MCPServer.validateToolArguments(tool, args)`. -/
def validateToolArguments (tool : Tool) (args : List (String × Value)) :
    Except VErr Unit := do
  checkRequired args tool.inputSchema.required
  serverCheckTypes tool.inputSchema.properties args

/-! ## Rendering helpers

`jsonStringify` models `JSON.stringify` (the `(·, null, 2)` pretty variant is
modelled without whitespace; JS number formatting is modelled by the `ℚ`
`toString`; string escaping is not modelled).  `jsRender` models template
interpolation of a value.  No claim depends on the exact rendered text. -/

def jsonQuote (s : String) : String := "\"" ++ s ++ "\""

mutual

def jsonStringify : Value → String
  | .vnull => "null"
  | .vbool b => if b then "true" else "false"
  | .vnum q => toString q
  | .vstr s => jsonQuote s
  | .varr xs => "[" ++ jsonStringifyElems xs ++ "]"
  | .vobj fs => "\x7b" ++ jsonStringifyFields fs ++ "\x7d"

def jsonStringifyElems : List Value → String
  | [] => ""
  | [x] => jsonStringify x
  | x :: xs => jsonStringify x ++ "," ++ jsonStringifyElems xs

def jsonStringifyFields : List (String × Value) → String
  | [] => ""
  | [(k, v)] => jsonQuote k ++ ":" ++ jsonStringify v
  | (k, v) :: fs => jsonQuote k ++ ":" ++ jsonStringify v ++ "," ++ jsonStringifyFields fs

end

def jsRender : Value → String
  | .vnull => "null"
  | .vbool b => if b then "true" else "false"
  | .vnum q => toString q
  | .vstr s => s
  | .varr _ => ""
  | .vobj _ => "[object Object]"

/-- Template interpolation where the value may be `undefined` (`none`). -/
def jsRenderOpt : Option Value → String
  | none => "undefined"
  | some v => jsRender v

def jsonStringifyOpt : Option Value → String
  | none => "undefined"
  | some v => jsonStringify v

/-! ## Tool result formatting (`MCPServer.formatToolResult`) -/

/-- `{content: [{type: "text", text}]}`. -/
def textContent (text : String) : Value :=
  .vobj [("content", .varr [.vobj [("type", .vstr "text"), ("text", .vstr text)]])]

/-- `MCPServer.formatToolResult(result)`: the source tests
`if (result && result.content)` — JS *truthiness* of the result and of its
`content` property — and otherwise wraps the raw result in a single text
content block (`typeof result === 'string' ? result : JSON.stringify(...)`). -/
def formatToolResult (result : Value) : Value :=
  if result.truthy && result.truthyField "content" then
    result
  else
    textContent (match result with
      | .vstr s => s
      | r => jsonStringify r)

/-! ## Local tool execution (`MCPServer.executeLocalTool`) -/

/-- Structured counterpart of the throw sites reachable inside the `try`
block of `handleToolCall` (in JS they are rethrown with the prefix
`Tool execution failed: <message>`). -/
inductive ExecErr where
  | extensionRequired (name : String)
  | notAvailableInMode (name : String)
  | localToolNotImplemented (name : String)
  | bridgeError (msg : String)
  deriving Repr, DecidableEq

/-- Process-environment inputs of the local tools: `ping` interpolates
`Math.round((Date.now() - this.startTime) / 1000)`, and `system_info`
serializes `process` state — both external inputs, passed as parameters. -/
structure LocalEnv where
  uptimeSeconds : ℤ := 0
  systemInfoText : String := ""

def argLookup (args : List (String × Value)) (key : String) : Option Value :=
  (args.find? (fun kv => kv.1 == key)).map (·.2)

/-- `MCPServer.executeLocalTool(toolName, args)` (the timed wait itself is a
reactor-deferred completion and contributes only the returned text). -/
def executeLocalTool (env : LocalEnv) (toolName : String)
    (args : List (String × Value)) : Except ExecErr Value :=
  if toolName == "browser_wait" then
    .ok (textContent ("Waited for " ++ jsRenderOpt (argLookup args "time") ++ " seconds"))
  else if toolName == "ping" then
    .ok (textContent ("Pong! Server uptime: " ++ toString env.uptimeSeconds ++ "s"))
  else if toolName == "system_info" then
    .ok (textContent env.systemInfoText)
  else
    .error (.localToolNotImplemented toolName)

/-- `MCPServer.toolRequiresExtension(toolName)`: the literal local-tool list. -/
def localTools : List String := ["browser_wait", "ping", "system_info"]

def toolRequiresExtension (toolName : String) : Bool :=
  !(localTools.contains toolName)

/-! ## Tool call dispatch (`MCPServer.handleToolCall`) -/

/-- Errors surfaced by `MCPServer.handleMessage`'s catch (sent to the client
as a JSON-RPC error object with code `-32603` and the error's message). -/
inductive MErr where
  | unknownMethod (rendering : String)
  | typeError
  | unknownTool (rendering : String)
  | validation (e : VErr)
  | toolExecutionFailed (e : ExecErr)
  | resourceReadNotImplemented
  | unknownPrompt (rendering : String)
  deriving Repr, DecidableEq

/-- A message written to the peer socket by `ExtensionBridge.executeTool`
as observed from the protocol handler. -/
inductive ClientToolSend where
  | toolRequest (toolName : String) (args : List (String × Value))

structure ServerCtx where
  flexibleMode : Bool := false
  extensionAvailable : Bool := false

/-- The informational text returned in flexible mode without a peer. -/
def flexibleModeText (name : String) : String :=
  "Tool \"" ++ name ++ "\" requires Chrome extension connection. Please install and connect the BrowseAgent Chrome extension to use browser automation features."

/-- `MCPServer.handleToolCall(params)` after destructuring, as a pure
function.  `bridgeCall` is the outcome of `this.bridge.executeTool(name,
args)` together with the socket traffic that call produced (detailed by the
bridge request machine below); it is consulted only on the delegated path.
`argsOpt` is the raw `params.arguments` value; the JS `field in args` /
`Object.entries(args)` throw `TypeError` on non-objects, modelled by the
final case. -/
def handleToolCall (ctx : ServerCtx) (env : LocalEnv)
    (bridgeCall : Except String Value × List ClientToolSend)
    (name : String) (argsOpt : Option Value) :
    Except MErr Value × List ClientToolSend :=
  match lookupTool name with
  | none => (.error (.unknownTool name), [])
  | some tool =>
    match argsOpt with
    | some (.vobj args) =>
      match validateToolArguments tool args with
      | .error e => (.error (.validation e), [])
      | .ok _ =>
        let requiresExtension := toolRequiresExtension name
        if requiresExtension && !ctx.extensionAvailable && !ctx.flexibleMode then
          (.error (.toolExecutionFailed (.extensionRequired name)), [])
        else if requiresExtension && ctx.extensionAvailable then
          (match bridgeCall.1 with
           | .ok r => (.ok (formatToolResult r), bridgeCall.2)
           | .error msg => (.error (.toolExecutionFailed (.bridgeError msg)), bridgeCall.2))
        else if !requiresExtension then
          (match executeLocalTool env name args with
           | .ok r => (.ok (formatToolResult r), [])
           | .error e => (.error (.toolExecutionFailed e), []))
        else if ctx.flexibleMode then
          (.ok (formatToolResult (textContent (flexibleModeText name))), [])
        else
          (.error (.toolExecutionFailed (.notAvailableInMode name)), [])
    | _ => (.error .typeError, [])

/-! ## RPC message handling (`MCPServer.handleMessage`) -/

/-- The fields `handleMessage` destructures from the inbound JSON message
(`none` models an absent / `undefined` field). -/
structure RpcMessage where
  jsonrpc : Option Value := none
  id : Option Value := none
  method : Option Value := none
  params : Option Value := none
  result : Option Value := none
  errorField : Option Value := none

instance : BEq Value := ⟨Value.beq⟩

/-- `MCPServer.isValidMCPMessage(message)`. -/
def isValidMCPMessage (m : RpcMessage) : Bool :=
  m.jsonrpc == some (.vstr "2.0") &&
  ((match m.method with | some v => v.truthy | none => false)
    || m.result.isSome || m.errorField.isSome)

/-- Member access `base.key` where `base` may be `undefined`: JS throws
`TypeError` on `undefined`/`null`, yields `undefined` for missing
properties. -/
def jsMember : Option Value → String → Except MErr (Option Value)
  | none, _ => throw .typeError
  | some .vnull, _ => throw .typeError
  | some v, key => pure (v.getField key)

/-- What `MCPServer` writes back over the client transport:
`sendResponse(id, result)` or `sendError(id, {code, message, data})`. -/
inductive Sent where
  | response (id : Value) (result : Value)
  | errorResponse (id : Value) (code : ℤ) (e : MErr)

/-- Mutable handler state touched by the dispatched methods. -/
structure ServerState where
  isInitialized : Bool := false
  clientInfo : Option Value := none
  /-- keys of `MCPServer.pendingRequests` (cancellation bookkeeping; the map
  is never populated elsewhere in the source). -/
  pendingRequests : List Value := []

def renderPropField (name : String) (v : Option Value) : List (String × Value) :=
  match v with
  | some x => [(name, x)]
  | none => []

def propSchemaValue (ps : PropSchema) : Value :=
  .vobj ((match ps.type with | some t => [("type", Value.vstr t)] | none => [])
    ++ [("description", Value.vstr ps.description)]
    ++ renderPropField "minimum" (ps.minimum.map .vnum)
    ++ renderPropField "maximum" (ps.maximum.map .vnum)
    ++ renderPropField "minLength" (ps.minLength.map (fun n => .vnum n))
    ++ renderPropField "maxLength" (ps.maxLength.map (fun n => .vnum n))
    ++ renderPropField "default" ps.defaultVal)

def inputSchemaValue (s : InputSchema) : Value :=
  .vobj ([("type", Value.vstr "object"),
          ("properties", Value.vobj (s.properties.map (fun kv => (kv.1, propSchemaValue kv.2))))]
    ++ (if s.required.isEmpty then []
        else [("required", Value.varr (s.required.map .vstr))]))

/-- The `tools/list` result `{tools: [...]}`. -/
def toolsListResult : Value :=
  .vobj [("tools", .varr (MCP_TOOLS.map (fun kv =>
    .vobj [("name", .vstr kv.2.name),
           ("description", .vstr kv.2.description),
           ("inputSchema", inputSchemaValue kv.2.inputSchema)])))]

/-- The `initialize` result. -/
def initializeResult : Value :=
  .vobj [("protocolVersion", .vstr "2024-11-05"),
         ("capabilities", .vobj [("tools", .vobj []), ("resources", .vobj []),
                                 ("prompts", .vobj [])]),
         ("serverInfo", .vobj [("name", .vstr "browseagent-mcp"),
                               ("version", .vstr "1.0.0"),
                               ("description", .vstr "Browser automation MCP server for MCP clients")])]

def promptArg (name description : String) (req : Bool) : Value :=
  .vobj [("name", .vstr name), ("description", .vstr description),
         ("required", .vbool req)]

/-- The `prompts/list` result. -/
def promptsListResult : Value :=
  .vobj [("prompts", .varr
    [ .vobj [("name", .vstr "analyze_page"),
             ("description", .vstr "Analyze the structure and content of a web page"),
             ("arguments", .varr [promptArg "url" "URL of the page to analyze" true])],
      .vobj [("name", .vstr "fill_form"),
             ("description", .vstr "Fill out a form on a web page"),
             ("arguments", .varr [promptArg "form_data" "Form fields and values to fill" true])] ])]

def promptMessageResult (description text : String) : Value :=
  .vobj [("description", .vstr description),
         ("messages", .varr [.vobj [("role", .vstr "user"),
           ("content", .vobj [("type", .vstr "text"), ("text", .vstr text)])]])]

/-- `MCPServer.handlePromptGet(params)` after the `params` destructuring. -/
def handlePromptGet (nameOpt argsOpt : Option Value) : Except MErr Value :=
  match nameOpt with
  | some (.vstr "analyze_page") => do
    let url ← jsMember argsOpt "url"
    pure (promptMessageResult "Analyze web page structure and content"
      ("Please analyze the web page at " ++ jsRenderOpt url ++
       ". Take a screenshot and accessibility snapshot, then provide insights about the page structure, interactive elements, and potential automation opportunities."))
  | some (.vstr "fill_form") => do
    let formData ← jsMember argsOpt "form_data"
    pure (promptMessageResult "Fill out form fields on a web page"
      ("Please fill out the form with the following data: " ++
       jsonStringifyOpt formData ++
       ". First take a snapshot to identify form fields, then fill them out systematically."))
  | other => throw (.unknownPrompt (jsRenderOpt other))

/-- One dispatched method of `MCPServer.handleMessage`'s `switch`.  The
`Option Value` in the success case is `some result` for request methods and
`none` for the notification handlers that `return` without a response.
The second component is the peer-socket traffic produced (only
`tools/call` can produce any). -/
def handleMethod (ctx : ServerCtx) (env : LocalEnv)
    (bridgeCall : Except String Value × List ClientToolSend) (now : ℚ)
    (st : ServerState) (msg : RpcMessage) :
    Except MErr (ServerState × Option Value) × List ClientToolSend :=
  match msg.method with
  | some (.vstr m) =>
    if m == "initialize" then
      (match jsMember msg.params "clientInfo" with
       | .error e => (.error e, [])
       | .ok ci => (.ok ({ st with clientInfo := ci, isInitialized := true },
                         some initializeResult), []))
    else if m == "notifications/initialized" then
      (.ok (st, none), [])
    else if m == "notifications/cancelled" then
      (match jsMember msg.params "requestId" with
       | .error e => (.error e, [])
       | .ok reqIdOpt =>
         let st' := match reqIdOpt with
           | some rv =>
             if st.pendingRequests.any (fun v => Value.beq v rv) then
               { st with pendingRequests :=
                   st.pendingRequests.filter (fun v => !(Value.beq v rv)) }
             else st
           | none => st
         (.ok (st', none), []))
    else if m == "tools/list" then
      (.ok (st, some toolsListResult), [])
    else if m == "tools/call" then
      (match jsMember msg.params "name", jsMember msg.params "arguments" with
       | .error e, _ => (.error e, [])
       | .ok _, .error e => (.error e, [])
       | .ok nameOpt, .ok argsOpt =>
         match handleToolCall ctx env bridgeCall (jsRenderOpt nameOpt) argsOpt with
         | (.ok v, bs) => (.ok (st, some v), bs)
         | (.error e, bs) => (.error e, bs))
    else if m == "resources/list" then
      (.ok (st, some (.vobj [("resources", .varr [])])), [])
    else if m == "resources/read" then
      (.error .resourceReadNotImplemented, [])
    else if m == "prompts/list" then
      (.ok (st, some promptsListResult), [])
    else if m == "prompts/get" then
      (match jsMember msg.params "name", jsMember msg.params "arguments" with
       | .error e, _ => (.error e, [])
       | .ok _, .error e => (.error e, [])
       | .ok nameOpt, .ok argsOpt =>
         match handlePromptGet nameOpt argsOpt with
         | .ok v => (.ok (st, some v), [])
         | .error e => (.error e, []))
    else if m == "ping" then
      (.ok (st, some (.vobj [("pong", .vbool true), ("timestamp", .vnum now)])), [])
    else
      (.error (.unknownMethod m), [])
  | other => (.error (.unknownMethod (jsRenderOpt other)), [])

/-- `MCPServer.handleMessage(message)`: validity check, dispatch, then a
response is sent only for a defined `id` (both on success — `if (id !==
undefined)` — and in the catch — `if (message.id !== undefined)`, with error
code `-32603`).  Returns the new state, the messages written to the client
transport, and the peer-socket traffic. -/
def handleMessage (ctx : ServerCtx) (env : LocalEnv)
    (bridgeCall : Except String Value × List ClientToolSend) (now : ℚ)
    (st : ServerState) (msg : RpcMessage) :
    ServerState × List Sent × List ClientToolSend :=
  if !(isValidMCPMessage msg) then (st, [], [])
  else
    match handleMethod ctx env bridgeCall now st msg with
    | (.ok (st', some result), bsends) =>
      (match msg.id with
       | some idv => (st', [.response idv result], bsends)
       | none => (st', [], bsends))
    | (.ok (st', none), bsends) => (st', [], bsends)
    | (.error e, bsends) =>
      (match msg.id with
       | some idv => (st, [.errorResponse idv (-32603) e], bsends)
       | none => (st, [], bsends))

/-- The method names with a `case` in `handleMessage`'s `switch`. -/
def dispatchedMethods : List String :=
  ["initialize", "notifications/initialized", "notifications/cancelled",
   "tools/list", "tools/call", "resources/list", "resources/read",
   "prompts/list", "prompts/get", "ping"]

/-! ## Length-prefixed framing (`StdioTransport`)

Bytes are `Nat`s (each `< 256` where produced).  `StdioTransport.send`
writes `lengthBuffer.writeUInt32LE(messageBuffer.length)` then the payload;
`handleStdinData` appends the chunk to `messageBuffer` and loops: with `≥ 4`
bytes it reads the little-endian length, and once `4 + length` bytes are
available it emits the payload slice and continues on the remainder.
Messages are modelled by their serialized payload byte lists (the
`JSON.stringify`/`JSON.parse` and UTF-8 encode/decode pair at either end is
the identity on the byte level modelled here). -/

/-- The little-endian 4-byte length header written by `send`. -/
def toLE4 (n : Nat) : List Nat :=
  [n % 256, n / 256 % 256, n / 256 ^ 2 % 256, n / 256 ^ 3 % 256]

/-- `readUInt32LE` over the first four buffered bytes. -/
def readUInt32LE (b0 b1 b2 b3 : Nat) : Nat :=
  b0 + 256 * b1 + 256 ^ 2 * b2 + 256 ^ 3 * b3

/-- `StdioTransport.send`: 4-byte little-endian length header, then the
payload bytes. -/
def encodeFrame (payload : List Nat) : List Nat :=
  toLE4 payload.length ++ payload

/-- The `while` loop of `handleStdinData` on the accumulated buffer:
returns the leftover buffer and the emitted payloads, in order. -/
def processBuffer : List Nat → List Nat × List (List Nat)
  | b0 :: b1 :: b2 :: b3 :: rest =>
    let len := readUInt32LE b0 b1 b2 b3
    if len ≤ rest.length then
      let r := processBuffer (rest.drop len)
      (r.1, rest.take len :: r.2)
    else
      (b0 :: b1 :: b2 :: b3 :: rest, [])
  | buf => (buf, [])
termination_by buf => buf.length
decreasing_by simp; omega

/-- `handleStdinData` over a sequence of chunks (partial reads): each chunk
is appended to the buffer and the loop is run; emitted payloads accumulate
in order. -/
def feedChunks (buf : List Nat) : List (List Nat) → List Nat × List (List Nat)
  | [] => (buf, [])
  | c :: cs =>
    let r := processBuffer (buf ++ c)
    let rest := feedChunks r.1 cs
    (rest.1, r.2 ++ rest.2)

/-! ## Bridge request correlation (`ExtensionBridge`)

The delegated-call bookkeeping of `ExtensionBridge`: `executeTool`
(allocates `++this.requestId`, stores a pending entry with a 60 s timer,
sends a `tool-request`), `handleToolResponse` (settles and deletes a known
id, ignores unknown ones), the per-request timeout callback (deletes, then
rejects), `handleDisconnection` (rejects and clears every pending entry),
`handleConnection` (replaces the socket), `sendMessage` (drops the message
when no socket is connected), and the heartbeat paths.  Modelled as a step
function over an explicit state; a pending entry's timer is armed exactly
while the entry is in the map (every settle path clears the timer). -/

namespace Bridge

/-- One settlement of a pending delegated request's promise. -/
inductive Settle where
  | resolved (id : Nat)              -- matching tool-response, success:true
  | rejectedFailure (id : Nat)       -- matching tool-response, success:false
  | rejectedTimeout (id : Nat)       -- the 60 s timeout callback
  | rejectedDisconnected (id : Nat)  -- peer-disconnection bulk failure
  deriving Repr, DecidableEq

def Settle.reqId : Settle → Nat
  | .resolved id => id
  | .rejectedFailure id => id
  | .rejectedTimeout id => id
  | .rejectedDisconnected id => id

/-- Traffic written to a peer socket (`sock` is the socket's identity). -/
inductive BSend where
  | welcome (sock : Nat)
  | toolRequest (sock : Nat) (reqId : Nat) (toolName : String)
  | heartbeat (sock : Nat)
  | heartbeatResponse (sock : Nat)
  deriving Repr, DecidableEq

structure BState where
  requestId : Nat := 0
  pending : List Nat := []
  socket : Option Nat := none
  deriving Repr, DecidableEq

def initB : BState := {}

inductive BEvent where
  | connect (sock : Nat)                 -- handleConnection (admitted socket)
  | socketClosed                         -- close on the socket → handleDisconnection
  | execTool (toolName : String)         -- executeTool call from the handler
  | toolResponse (reqId : Nat) (success : Bool)
  | timerFire (reqId : Nat)              -- the per-request 60 s timeout fires
  | heartbeatMsg                         -- heartbeat from peer → heartbeat-response
  | heartbeatTick                        -- the 30 s interval callback
  deriving Repr, DecidableEq

def step (s : BState) : BEvent → BState × List Settle × List BSend
  | .connect sock =>
    -- handleConnection: close any existing socket, install the new one
    ({ s with socket := some sock }, [], [.welcome sock])
  | .socketClosed =>
    -- handleDisconnection: drop the socket, reject every pending request
    ({ s with socket := none, pending := [] },
     s.pending.map .rejectedDisconnected, [])
  | .execTool name =>
    (match s.socket with
     | none => (s, [], [])   -- throws 'Extension not connected' before allocating
     | some sock =>
       let rid := s.requestId + 1
       ({ s with requestId := rid, pending := s.pending ++ [rid] },
        [], [.toolRequest sock rid name]))
  | .toolResponse rid success =>
    if rid ∈ s.pending then
      ({ s with pending := s.pending.erase rid },
       [if success then .resolved rid else .rejectedFailure rid], [])
    else
      (s, [], [])            -- unknown request id: logged and ignored
  | .timerFire rid =>
    ({ s with pending := s.pending.erase rid }, [.rejectedTimeout rid], [])
  | .heartbeatMsg =>
    (match s.socket with
     | some sock => (s, [], [.heartbeatResponse sock])
     | none => (s, [], []))  -- sendMessage drops it: no socket
  | .heartbeatTick =>
    (match s.socket with
     | some sock => (s, [], [.heartbeat sock])
     | none => (s, [], []))  -- interval body guarded by `if (this.extensionSocket)`

/-- Which events the runtime can deliver in a state: a request's timeout
callback can run only while the timer is armed and uncleared, i.e. while
the entry is still pending; a close event needs a socket. -/
def enabled (s : BState) : BEvent → Bool
  | .timerFire rid => s.pending.contains rid
  | .socketClosed => s.socket.isSome
  | _ => true

def validFrom (s : BState) : List BEvent → Bool
  | [] => true
  | e :: es => enabled s e && validFrom (step s e).1 es

def run (s : BState) : List BEvent → BState × List Settle × List BSend
  | [] => (s, [], [])
  | e :: es =>
    let r := step s e
    let rest := run r.1 es
    (rest.1, r.2.1 ++ rest.2.1, r.2.2 ++ rest.2.2)

def endState (s : BState) (t : List BEvent) : BState := (run s t).1
def settlesFrom (s : BState) (t : List BEvent) : List Settle := (run s t).2.1
def sendsFrom (s : BState) (t : List BEvent) : List BSend := (run s t).2.2

/-- How many times request `id`'s promise is settled along a trace. -/
def countSettles (id : Nat) (l : List Settle) : Nat :=
  (l.filter (fun x => x.reqId == id)).length

/-- The request ids carried by the `tool-request` messages actually written
to a peer socket, in emission order. -/
def allocatedIds (sends : List BSend) : List Nat :=
  sends.filterMap (fun x => match x with
    | .toolRequest _ rid _ => some rid
    | _ => none)

/-- The state invariant of the pending-request map: distinct ids, all
allocated (between 1 and the current counter). -/
def InvS (s : BState) : Prop :=
  s.pending.Nodup ∧ ∀ id ∈ s.pending, 1 ≤ id ∧ id ≤ s.requestId

end Bridge

/-! ## Peer admission (the `ExtensionBridge` revision with
`pendingConnections`): `handleConnection` stores a pending connection with a
3 s handshake timer and sends a challenge; `handlePendingMessage` accepts a
valid `handshake`, rejects anything else; `rejectConnection` sends
`connection-rejected` and closes with the policy-violation code 1008;
`acceptConnection` clears the timer, promotes the socket and registers the
extension.  A pending entry's handshake timer is armed exactly while the
entry is in `pendingConnections`. -/

namespace Admission

/-- The parsed first message from a pending connection (`none` field =
absent / `undefined`).  `mtype` is the `type` property. -/
structure HandshakeMsg where
  mtype : Option Value := none
  extensionId : Option Value := none
  version : Option Value := none
  capabilities : Option Value := none

/-- The throw-free rejection reasons of `validateHandshake`. -/
inductive HsRej where
  | missingField (f : String)
  | invalidType
  | invalidExtensionId
  | invalidVersion
  | invalidCapabilities
  deriving Repr, DecidableEq

def fieldTruthy : Option Value → Bool
  | some v => v.truthy
  | none => false

/-- `validateHandshake(message)`: required-field truthiness, type tag,
string-typed non-empty `extensionId` and `version`, object-typed non-null
`capabilities`; returns the extension id on success. -/
def validateHandshake (m : HandshakeMsg) : Except HsRej String :=
  if !(fieldTruthy m.mtype) then .error (.missingField "type")
  else if !(fieldTruthy m.extensionId) then .error (.missingField "extensionId")
  else if !(fieldTruthy m.version) then .error (.missingField "version")
  else if !(fieldTruthy m.capabilities) then .error (.missingField "capabilities")
  else if !(m.mtype == some (.vstr "handshake")) then .error .invalidType
  else
    match m.extensionId with
    | some (.vstr s) =>
      if s.length == 0 then .error .invalidExtensionId
      else
        match m.version with
        | some (.vstr v) =>
          if v.length == 0 then .error .invalidVersion
          else
            match m.capabilities with
            | some c =>
              if c.jsTypeof == "object" && !(c matches .vnull) then .ok s
              else .error .invalidCapabilities
            | none => .error .invalidCapabilities
        | _ => .error .invalidVersion
    | _ => .error .invalidExtensionId

/-- Why `rejectConnection` was called. -/
inductive RejectReason where
  | handshakeTimeout
  | invalidSequence       -- first message was not a handshake
  | invalidFormat         -- unparsable first message
  | validationFailed (r : HsRej)
  | connectionError
  deriving Repr, DecidableEq

/-- Peer-side traffic of the admission machine (`cid` is the connection). -/
inductive ASend where
  | challenge (cid : Nat)            -- connection-challenge on accept
  | handshakeResponse (cid : Nat)    -- success acknowledgement
  | connectionRejected (cid : Nat) (reason : RejectReason)
  | closeSock (cid : Nat) (code : Nat)
  deriving Repr, DecidableEq

structure AState where
  pendingConnections : List Nat := []     -- connection ids, timers armed
  registeredExtensions : List String := []
  activeExtensionId : Option String := none
  extensionSocket : Option Nat := none    -- connection id of the admitted socket
  deriving Repr, DecidableEq

def initA : AState := {}

inductive AEvent where
  | connAccept (cid : Nat)                       -- server 'connection'
  | pendingMsg (cid : Nat) (m : Option HandshakeMsg)  -- none = parse failure
  | timerFire (cid : Nat)                        -- handshake timeout fires
  | pendingClosed (cid : Nat)                    -- pending socket closed

/-- `rejectConnection(connectionId, reason)`. -/
def rejectConn (s : AState) (cid : Nat) (r : RejectReason) : AState × List ASend :=
  if cid ∈ s.pendingConnections then
    ({ s with pendingConnections := s.pendingConnections.erase cid },
     [.connectionRejected cid r, .closeSock cid 1008])
  else (s, [])

/-- `disconnectExtension(extensionId)`. -/
def disconnectExtension (s : AState) (extId : String) : AState × List ASend :=
  let closes :=
    match s.extensionSocket with
    | some old => if s.activeExtensionId == some extId then [ASend.closeSock old 1000] else []
    | none => []
  ({ s with
      extensionSocket :=
        if s.activeExtensionId == some extId then none else s.extensionSocket,
      registeredExtensions := s.registeredExtensions.erase extId,
      activeExtensionId :=
        if s.activeExtensionId == some extId then none else s.activeExtensionId },
   closes)

/-- `acceptConnection(connectionId, handshakeMessage)`. -/
def acceptConn (s : AState) (cid : Nat) (extId : String) : AState × List ASend :=
  if cid ∈ s.pendingConnections then
    ({ s with
        pendingConnections := s.pendingConnections.erase cid,
        extensionSocket := some cid,
        activeExtensionId := some extId,
        registeredExtensions :=
          if s.registeredExtensions.contains extId then s.registeredExtensions
          else s.registeredExtensions ++ [extId] },
     [.handshakeResponse cid])
  else (s, [])

def stepA (s : AState) : AEvent → AState × List ASend
  | .connAccept cid =>
    ({ s with pendingConnections := s.pendingConnections ++ [cid] },
     [.challenge cid])
  | .pendingMsg cid m =>
    if cid ∈ s.pendingConnections then
      match m with
      | none => rejectConn s cid .invalidFormat
      | some msg =>
        if msg.mtype == some (.vstr "handshake") then
          -- processHandshake
          match validateHandshake msg with
          | .error r => rejectConn s cid (.validationFailed r)
          | .ok extId =>
            let d :=
              if s.registeredExtensions.contains extId then disconnectExtension s extId
              else (s, [])
            let a := acceptConn d.1 cid extId
            (a.1, d.2 ++ a.2)
        else
          rejectConn s cid .invalidSequence
    else (s, [])    -- processHandshake's unknown-connection guard
  | .timerFire cid => rejectConn s cid .handshakeTimeout
  | .pendingClosed cid =>
    ({ s with pendingConnections := s.pendingConnections.erase cid }, [])

/-- A handshake timer can fire only while armed (entry still pending); a
fresh server connection has a fresh connection object. -/
def enabledA (s : AState) : AEvent → Bool
  | .connAccept cid =>
    !(s.pendingConnections.contains cid) && !(s.extensionSocket == some cid)
  | .pendingMsg _ _ => true
  | .timerFire cid => s.pendingConnections.contains cid
  | .pendingClosed cid => s.pendingConnections.contains cid

def validFromA (s : AState) : List AEvent → Bool
  | [] => true
  | e :: es => enabledA s e && validFromA (stepA s e).1 es

def runA (s : AState) : List AEvent → AState × List ASend
  | [] => (s, [])
  | e :: es =>
    let r := stepA s e
    let rest := runA r.1 es
    (rest.1, r.2 ++ rest.2)

def sendsA (s : AState) (t : List AEvent) : List ASend := (runA s t).2

/-- Whether an event is a message from connection `cid`. -/
def isMsgFrom (cid : Nat) : AEvent → Bool
  | .pendingMsg c _ => c == cid
  | _ => false

/-- Whether an event is the handshake-timeout firing for `cid`. -/
def isTimerFor (cid : Nat) : AEvent → Bool
  | .timerFire c => c == cid
  | _ => false

end Admission

/-! # Bridge request-correlation lemmas (claims C1, C2, C10) -/

namespace Bridge

lemma settlesFrom_cons (s : BState) (e : BEvent) (es : List BEvent) :
    settlesFrom s (e :: es) = (step s e).2.1 ++ settlesFrom (step s e).1 es := rfl

lemma sendsFrom_cons (s : BState) (e : BEvent) (es : List BEvent) :
    sendsFrom s (e :: es) = (step s e).2.2 ++ sendsFrom (step s e).1 es := rfl

lemma endState_cons (s : BState) (e : BEvent) (es : List BEvent) :
    endState s (e :: es) = endState (step s e).1 es := rfl

lemma countSettles_nil (id : Nat) : countSettles id [] = 0 := rfl

lemma countSettles_append (id : Nat) (l1 l2 : List Settle) :
    countSettles id (l1 ++ l2) = countSettles id l1 + countSettles id l2 := by
  simp [countSettles, List.filter_append]

lemma countSettles_single (id rid : Nat) (x : Settle) (hx : x.reqId = rid) :
    countSettles id [x] = if rid = id then 1 else 0 := by
  by_cases h : rid = id
  · subst h
    simp [countSettles, List.filter_cons, hx]
  · simp [countSettles, List.filter_cons, hx, h]

lemma countSettles_disc (id : Nat) :
    ∀ (l : List Nat), l.Nodup →
      countSettles id (l.map .rejectedDisconnected) = if id ∈ l then 1 else 0 := by
  intro l
  induction l with
  | nil => intro _; simp [countSettles]
  | cons a l ih =>
    intro h
    obtain ⟨ha, hl⟩ := List.nodup_cons.mp h
    by_cases hid : a = id
    · subst hid
      rw [List.map_cons]
      have hstep : countSettles a (Settle.rejectedDisconnected a ::
          l.map .rejectedDisconnected)
          = 1 + countSettles a (l.map .rejectedDisconnected) := by
        simp [countSettles, List.filter_cons, Settle.reqId, Nat.add_comm]
      rw [hstep, ih hl, if_neg ha, if_pos (List.mem_cons_self a l)]
    · rw [List.map_cons]
      have hstep : countSettles id (Settle.rejectedDisconnected a ::
          l.map .rejectedDisconnected)
          = countSettles id (l.map .rejectedDisconnected) := by
        simp [countSettles, List.filter_cons, Settle.reqId, hid]
      rw [hstep, ih hl]
      by_cases hm : id ∈ l
      · rw [if_pos hm, if_pos (List.mem_cons_of_mem a hm)]
      · rw [if_neg hm, if_neg]
        simp only [List.mem_cons]
        rintro (rfl | hc)
        · exact hid rfl
        · exact hm hc

/-- The conclusion tracked along a valid trace: the invariant is preserved,
the id counter grows, every id still pending at the end was pending at the
start or allocated along the way, and each id is settled exactly when it
was created and is no longer pending. -/
def InvariantConcl (s : BState) (t : List BEvent) : Prop :=
  InvS (endState s t) ∧
  s.requestId ≤ (endState s t).requestId ∧
  (∀ id ∈ (endState s t).pending,
     id ∈ s.pending ∨ (s.requestId < id ∧ id ≤ (endState s t).requestId)) ∧
  (∀ id, countSettles id (settlesFrom s t) =
     if (id ∈ s.pending ∨ (s.requestId < id ∧ id ≤ (endState s t).requestId))
         ∧ id ∉ (endState s t).pending then 1 else 0)

/-- Shared argument for the two settle-and-remove events (a matching
`tool-response` and the timeout callback): removing `rid` from the pending
map and emitting one settlement for it preserves the tracked conclusion. -/
lemma removal_step (s s1 : BState) (es : List BEvent) (rid : Nat) (x : Settle)
    (hx : x.reqId = rid) (hmem : rid ∈ s.pending) (hInv : InvS s)
    (hpend : s1.pending = s.pending.erase rid)
    (hrid : s1.requestId = s.requestId)
    (IH : InvariantConcl s1 es) :
    InvS (endState s1 es) ∧
    s.requestId ≤ (endState s1 es).requestId ∧
    (∀ id ∈ (endState s1 es).pending,
       id ∈ s.pending ∨ (s.requestId < id ∧ id ≤ (endState s1 es).requestId)) ∧
    (∀ id, countSettles id (x :: settlesFrom s1 es) =
       if (id ∈ s.pending ∨ (s.requestId < id ∧ id ≤ (endState s1 es).requestId))
           ∧ id ∉ (endState s1 es).pending
       then 1 else 0) := by
  obtain ⟨IH1, IH2, IH3, IH4⟩ := IH
  rw [hrid] at IH2
  rw [hpend, hrid] at IH3
  rw [hpend, hrid] at IH4
  refine ⟨IH1, IH2, ?_, ?_⟩
  · intro id hid
    rcases IH3 id hid with h | h
    · exact .inl (List.mem_of_mem_erase h)
    · exact .inr h
  · intro id
    have hcons : (x :: settlesFrom s1 es) = [x] ++ settlesFrom s1 es := rfl
    rw [hcons, countSettles_append, countSettles_single id rid x hx, IH4 id]
    by_cases hid : rid = id
    · subst hid
      have h1 : rid ∉ s.pending.erase rid := fun hc =>
        ((List.Nodup.mem_erase_iff hInv.1).mp hc).1 rfl
      have hle : rid ≤ s.requestId := (hInv.2 rid hmem).2
      have hnotE : rid ∉ (endState s1 es).pending := by
        intro hc
        rcases IH3 rid hc with h | h
        · exact h1 h
        · omega
      rw [if_pos rfl, if_neg, if_pos ⟨.inl hmem, hnotE⟩]
      rintro ⟨h | h, _⟩
      · exact h1 h
      · omega
    · have hiff : id ∈ s.pending.erase rid ↔ id ∈ s.pending :=
        List.mem_erase_of_ne (fun h => hid h.symm)
      rw [if_neg hid, Nat.zero_add, if_congr (by rw [hiff]) rfl rfl]

/-- Allocating a fresh id (`++this.requestId`) and appending it to the
pending map preserves the invariant. -/
lemma alloc_invariant (s s1 : BState) (hInv : InvS s)
    (hpend : s1.pending = s.pending ++ [s.requestId + 1])
    (hrid : s1.requestId = s.requestId + 1) : InvS s1 := by
  obtain ⟨hnd, hbd⟩ := hInv
  constructor
  · rw [hpend, List.nodup_append]
    refine ⟨hnd, List.nodup_singleton _, ?_⟩
    intro y hy hy1
    rw [List.mem_singleton] at hy1
    subst hy1
    obtain ⟨_, h2⟩ := hbd _ hy
    omega
  · intro id hid
    rw [hpend, List.mem_append, List.mem_singleton] at hid
    rw [hrid]
    rcases hid with h | h
    · obtain ⟨h1, h2⟩ := hbd id h
      exact ⟨h1, by omega⟩
    · subst h
      exact ⟨by omega, le_rfl⟩

/-- Shared argument for the `executeTool` dispatch event: allocating the
fresh id preserves the tracked conclusion (no settlement is emitted). -/
lemma alloc_step (s s1 : BState) (es : List BEvent)
    (hpend : s1.pending = s.pending ++ [s.requestId + 1])
    (hrid : s1.requestId = s.requestId + 1)
    (IH : InvariantConcl s1 es) :
    InvS (endState s1 es) ∧
    s.requestId ≤ (endState s1 es).requestId ∧
    (∀ id ∈ (endState s1 es).pending,
       id ∈ s.pending ∨ (s.requestId < id ∧ id ≤ (endState s1 es).requestId)) ∧
    (∀ id, countSettles id (settlesFrom s1 es) =
       if (id ∈ s.pending ∨ (s.requestId < id ∧ id ≤ (endState s1 es).requestId))
           ∧ id ∉ (endState s1 es).pending then 1 else 0) := by
  obtain ⟨IH1, IH2, IH3, IH4⟩ := IH
  rw [hrid] at IH2
  rw [hpend, hrid] at IH3
  rw [hpend, hrid] at IH4
  refine ⟨IH1, by omega, ?_, ?_⟩
  · intro id hid
    rcases IH3 id hid with h | h
    · rw [List.mem_append, List.mem_singleton] at h
      rcases h with h | h
      · exact .inl h
      · subst h
        exact .inr ⟨by omega, by omega⟩
    · exact .inr ⟨by omega, h.2⟩
  · intro id
    have hiff : ((id ∈ s.pending ++ [s.requestId + 1] ∨
          (s.requestId + 1 < id ∧ id ≤ (endState s1 es).requestId))
          ∧ id ∉ (endState s1 es).pending)
        ↔ ((id ∈ s.pending ∨
          (s.requestId < id ∧ id ≤ (endState s1 es).requestId))
          ∧ id ∉ (endState s1 es).pending) := by
      constructor
      · rintro ⟨h | ⟨h1, h2⟩, hn⟩
        · rw [List.mem_append, List.mem_singleton] at h
          rcases h with h | h
          · exact ⟨.inl h, hn⟩
          · exact ⟨.inr ⟨by omega, by omega⟩, hn⟩
        · exact ⟨.inr ⟨by omega, h2⟩, hn⟩
      · rintro ⟨h | ⟨h1, h2⟩, hn⟩
        · exact ⟨.inl (by rw [List.mem_append]; exact .inl h), hn⟩
        · by_cases hq : id = s.requestId + 1
          · refine ⟨.inl ?_, hn⟩
            rw [List.mem_append, List.mem_singleton]
            exact .inr hq
          · exact ⟨.inr ⟨by omega, h2⟩, hn⟩
    rw [IH4 id, if_congr hiff rfl rfl]

/-- Shared argument for the bulk-failure event (`handleDisconnection`):
every pending request is settled with the disconnection rejection and the
map is cleared. -/
lemma close_step (s s1 : BState) (es : List BEvent) (hInv : InvS s)
    (hpend : s1.pending = []) (hrid : s1.requestId = s.requestId)
    (IH : InvariantConcl s1 es) :
    InvS (endState s1 es) ∧
    s.requestId ≤ (endState s1 es).requestId ∧
    (∀ id ∈ (endState s1 es).pending,
       id ∈ s.pending ∨ (s.requestId < id ∧ id ≤ (endState s1 es).requestId)) ∧
    (∀ id, countSettles id
        (s.pending.map .rejectedDisconnected ++ settlesFrom s1 es) =
       if (id ∈ s.pending ∨ (s.requestId < id ∧ id ≤ (endState s1 es).requestId))
           ∧ id ∉ (endState s1 es).pending then 1 else 0) := by
  obtain ⟨IH1, IH2, IH3, IH4⟩ := IH
  rw [hrid] at IH2
  rw [hpend, hrid] at IH3
  rw [hpend, hrid] at IH4
  refine ⟨IH1, IH2, ?_, ?_⟩
  · intro id hid
    rcases IH3 id hid with h | h
    · simp at h
    · exact .inr h
  · intro id
    rw [countSettles_append, countSettles_disc id s.pending hInv.1, IH4 id]
    by_cases hm : id ∈ s.pending
    · have hle : id ≤ s.requestId := (hInv.2 id hm).2
      have hnotE : id ∉ (endState s1 es).pending := by
        intro hc
        rcases IH3 id hc with h | h
        · simp at h
        · omega
      rw [if_pos hm, if_neg, if_pos ⟨.inl hm, hnotE⟩]
      rintro ⟨h | h, _⟩
      · simp at h
      · omega
    · have hiff : ((id ∈ ([] : List Nat) ∨
            (s.requestId < id ∧ id ≤ (endState s1 es).requestId))
            ∧ id ∉ (endState s1 es).pending)
          ↔ ((id ∈ s.pending ∨
            (s.requestId < id ∧ id ≤ (endState s1 es).requestId))
            ∧ id ∉ (endState s1 es).pending) := by
        constructor
        · rintro ⟨h | h, hn⟩
          · simp at h
          · exact ⟨.inr h, hn⟩
        · rintro ⟨h | h, hn⟩
          · exact absurd h hm
          · exact ⟨.inr h, hn⟩
      rw [if_neg hm, Nat.zero_add, if_congr hiff rfl rfl]

/-- Core bookkeeping lemma for the pending-request map of
`ExtensionBridge` along any valid event trace. -/
lemma run_invariant :
    ∀ (t : List BEvent) (s : BState), InvS s → validFrom s t = true →
      InvariantConcl s t := by
  intro t
  induction t with
  | nil =>
    intro s hInv _
    refine ⟨hInv, le_rfl, fun id h => .inl h, fun id => ?_⟩
    have h0 : settlesFrom s [] = [] := rfl
    have hE : endState s [] = s := rfl
    rw [h0, hE, countSettles_nil, if_neg]
    rintro ⟨hmem | ⟨hlt, hle⟩, hnot⟩
    · exact hnot hmem
    · omega
  | cons e es ih =>
    intro s hInv hval
    rw [validFrom, Bool.and_eq_true] at hval
    obtain ⟨hen, hval⟩ := hval
    unfold InvariantConcl
    rw [endState_cons, settlesFrom_cons]
    cases e with
    | connect sock =>
      simp only [step] at hval ⊢
      exact ih _ hInv hval
    | heartbeatMsg =>
      rcases hsock : s.socket with _ | sock <;>
        simp only [step, hsock] at hval ⊢ <;> exact ih _ hInv hval
    | heartbeatTick =>
      rcases hsock : s.socket with _ | sock <;>
        simp only [step, hsock] at hval ⊢ <;> exact ih _ hInv hval
    | execTool name =>
      rcases hsock : s.socket with _ | sock
      · simp only [step, hsock] at hval ⊢
        exact ih _ hInv hval
      · simp only [step, hsock] at hval ⊢
        exact alloc_step s _ es rfl rfl
          (ih _ (alloc_invariant s _ hInv rfl rfl) hval)
    | socketClosed =>
      simp only [step] at hval ⊢
      exact close_step s _ es hInv rfl rfl
        (ih _ ⟨List.nodup_nil, by simp⟩ hval)
    | toolResponse rid success =>
      by_cases hmem : rid ∈ s.pending
      · simp only [step, if_pos hmem] at hval ⊢
        have hInv1 : InvS ({ s with pending := s.pending.erase rid }) :=
          ⟨hInv.1.erase _, fun id h => hInv.2 id (List.mem_of_mem_erase h)⟩
        exact removal_step s _ es rid _ (by cases success <;> rfl) hmem hInv
          rfl rfl (ih _ hInv1 hval)
      · simp only [step, if_neg hmem] at hval ⊢
        exact ih _ hInv hval
    | timerFire rid =>
      have hmem : rid ∈ s.pending := by
        simp only [enabled] at hen
        simpa using hen
      simp only [step] at hval ⊢
      have hInv1 : InvS ({ s with pending := s.pending.erase rid }) :=
        ⟨hInv.1.erase _, fun id h => hInv.2 id (List.mem_of_mem_erase h)⟩
      exact removal_step s _ es rid _ rfl hmem hInv rfl rfl (ih _ hInv1 hval)

lemma validFrom_append :
    ∀ (t u : List BEvent) (s : BState),
      validFrom s (t ++ u) = (validFrom s t && validFrom (endState s t) u) := by
  intro t
  induction t with
  | nil => intro u s; rfl
  | cons e es ih =>
    intro u s
    show (enabled s e && validFrom (step s e).1 (es ++ u)) = _
    rw [ih u (step s e).1, ← Bool.and_assoc]
    rfl

lemma endState_append (t u : List BEvent) (s : BState) :
    endState s (t ++ u) = endState (endState s t) u := by
  induction t generalizing s with
  | nil => rfl
  | cons e es ih => exact ih (step s e).1

lemma settlesFrom_append :
    ∀ (t u : List BEvent) (s : BState),
      settlesFrom s (t ++ u) = settlesFrom s t ++ settlesFrom (endState s t) u := by
  intro t
  induction t with
  | nil => intro u s; rfl
  | cons e es ih =>
    intro u s
    show (step s e).2.1 ++ settlesFrom (step s e).1 (es ++ u) = _
    rw [ih u (step s e).1, settlesFrom_cons, endState_cons, List.append_assoc]

lemma sendsFrom_append :
    ∀ (t u : List BEvent) (s : BState),
      sendsFrom s (t ++ u) = sendsFrom s t ++ sendsFrom (endState s t) u := by
  intro t
  induction t with
  | nil => intro u s; rfl
  | cons e es ih =>
    intro u s
    show (step s e).2.2 ++ sendsFrom (step s e).1 (es ++ u) = _
    rw [ih u (step s e).1, sendsFrom_cons, endState_cons, List.append_assoc]

/-- Firing the armed timeout of every still-pending request is a valid
continuation that empties the pending map, leaving the id counter and
socket untouched. -/
lemma drain_timers :
    ∀ (l : List Nat) (s : BState), s.pending = l → l.Nodup →
      validFrom s (l.map .timerFire) = true ∧
      endState s (l.map .timerFire) = { s with pending := [] } := by
  intro l
  induction l with
  | nil =>
    intro s hpend _
    refine ⟨rfl, ?_⟩
    show s = { s with pending := [] }
    conv_rhs => rw [← hpend]
  | cons a l ih =>
    intro s hpend hnd
    obtain ⟨ha, hl⟩ := List.nodup_cons.mp hnd
    have hen : enabled s (.timerFire a) = true := by
      simp [enabled, hpend]
    have hstep : (step s (.timerFire a)).1 = { s with pending := l } := by
      show ({ s with pending := s.pending.erase a } : BState)
          = { s with pending := l }
      rw [hpend, List.erase_cons_head]
    have hnext := ih { s with pending := l } rfl hl
    constructor
    · rw [List.map_cons, validFrom, Bool.and_eq_true]
      exact ⟨hen, by rw [hstep]; exact hnext.1⟩
    · rw [List.map_cons, endState_cons, hstep]
      exact hnext.2

/-- C1: along any valid bridge trace, every delegated request's promise is
settled at most once; every request completed by the end of the trace was
settled exactly once; and any trace extends — by letting the armed 60 s
timers fire — to one in which every allocated request has been settled
exactly once (by a matching response, the timeout, or disconnection
bulk-failure: the only settlement kinds of the model). -/
theorem C1_settle_exactly_once (t : List BEvent)
    (h : validFrom Bridge.initB t = true) :
    (∀ id, countSettles id (settlesFrom Bridge.initB t) ≤ 1) ∧
    (∀ id, 1 ≤ id → id ≤ (endState Bridge.initB t).requestId →
       id ∉ (endState Bridge.initB t).pending →
       countSettles id (settlesFrom Bridge.initB t) = 1) ∧
    (∃ ext, validFrom Bridge.initB (t ++ ext) = true ∧
       (endState Bridge.initB (t ++ ext)).pending = [] ∧
       ∀ id, 1 ≤ id → id ≤ (endState Bridge.initB t).requestId →
         countSettles id (settlesFrom Bridge.initB (t ++ ext)) = 1) := by
  have hInv0 : InvS initB := ⟨List.nodup_nil, by simp [initB]⟩
  obtain ⟨hI, _, _, hC⟩ := run_invariant t initB hInv0 h
  have hinit_pending : initB.pending = [] := rfl
  have hinit_rid : initB.requestId = 0 := rfl
  refine ⟨?_, ?_, ?_⟩
  · intro id
    rw [hC id]
    split <;> omega
  · intro id h1 h2 h3
    rw [hC id, if_pos]
    rw [hinit_pending, hinit_rid]
    exact ⟨.inr ⟨by omega, h2⟩, h3⟩
  · obtain ⟨hv, hE⟩ := drain_timers (endState initB t).pending (endState initB t)
      rfl hI.1
    refine ⟨(endState initB t).pending.map .timerFire, ?_, ?_, ?_⟩
    · rw [validFrom_append, h, hv]
      rfl
    · rw [endState_append, hE]
    · intro id h1 h2
      have hInvE : InvS (endState Bridge.initB (t ++
          (endState initB t).pending.map .timerFire)) ∧ _ :=
        run_invariant _ initB hInv0 (by rw [validFrom_append, h, hv]; rfl)
      obtain ⟨_, _, _, hC2⟩ :=
        run_invariant (t ++ (endState initB t).pending.map .timerFire)
          initB hInv0 (by rw [validFrom_append, h, hv]; rfl)
      rw [hC2 id, if_pos]
      have hrid : (endState Bridge.initB (t ++
          (endState initB t).pending.map .timerFire)).requestId
          = (endState initB t).requestId := by
        rw [endState_append, hE]
      have hpend : (endState Bridge.initB (t ++
          (endState initB t).pending.map .timerFire)).pending = [] := by
        rw [endState_append, hE]
      rw [hinit_pending, hinit_rid, hrid, hpend]
      exact ⟨.inr ⟨by omega, h2⟩, by simp⟩

/-- C1 witness: a trace that exercises all three settlement paths — a
successful response, a timeout, and the quiescent extension. -/
theorem C1_witness :
    validFrom Bridge.initB
      [.connect 7, .execTool "browser_click", .execTool "browser_type",
       .toolResponse 1 true, .timerFire 2] = true ∧
    (∀ id, countSettles id (settlesFrom Bridge.initB
      [.connect 7, .execTool "browser_click", .execTool "browser_type",
       .toolResponse 1 true, .timerFire 2]) ≤ 1) :=
  ⟨by decide,
   (C1_settle_exactly_once
     [.connect 7, .execTool "browser_click", .execTool "browser_type",
      .toolResponse 1 true, .timerFire 2] (by decide)).1⟩

/-- Sockets receive no traffic once the admitted socket is gone, as long as
no new peer connection is admitted. -/
lemma no_sends_without_socket :
    ∀ (t : List BEvent) (s : BState), s.socket = none →
      t.all (fun e => !(e matches .connect _)) = true →
      validFrom s t = true →
      sendsFrom s t = [] ∧ (endState s t).socket = none := by
  intro t
  induction t with
  | nil => intro s hs _ _; exact ⟨rfl, hs⟩
  | cons e es ih =>
    intro s hs hall hval
    rw [List.all_cons, Bool.and_eq_true] at hall
    obtain ⟨he, hall⟩ := hall
    rw [validFrom, Bool.and_eq_true] at hval
    obtain ⟨hen, hval⟩ := hval
    rw [sendsFrom_cons, endState_cons]
    cases e with
    | connect sock => simp at he
    | socketClosed =>
      rw [enabled, hs] at hen
      simp at hen
    | execTool name =>
      rw [show (step s (.execTool name)) = (s, [], []) from by
            simp only [step, hs]]
      simpa using ih s hs hall (by simpa [step, hs] using hval)
    | toolResponse rid success =>
      by_cases hmem : rid ∈ s.pending
      · rw [show (step s (.toolResponse rid success)).2.2 = [] from by
              simp only [step, if_pos hmem]]
        have hstep : (step s (.toolResponse rid success)).1
            = { s with pending := s.pending.erase rid } := by
          simp only [step, if_pos hmem]
        rw [hstep] at hval ⊢
        simpa using ih { s with pending := s.pending.erase rid } hs hall hval
      · have hstep1 : (step s (.toolResponse rid success)).1 = s := by
          simp only [step, if_neg hmem]
        rw [hstep1] at hval
        rw [show (step s (.toolResponse rid success)) = (s, [], []) from by
              simp only [step, if_neg hmem]]
        simpa using ih s hs hall hval
    | timerFire rid =>
      have hstep1 : (step s (.timerFire rid)).1
          = { s with pending := s.pending.erase rid } := rfl
      have hsend : (step s (.timerFire rid)).2.2 = [] := rfl
      rw [hstep1] at hval
      rw [hstep1, hsend]
      simpa using ih { s with pending := s.pending.erase rid } hs hall hval
    | heartbeatMsg =>
      rw [show (step s .heartbeatMsg) = (s, [], []) from by simp only [step, hs]]
      simpa using ih s hs hall (by simpa [step, hs] using hval)
    | heartbeatTick =>
      rw [show (step s .heartbeatTick) = (s, [], []) from by simp only [step, hs]]
      simpa using ih s hs hall (by simpa [step, hs] using hval)

/-- C2: when the admitted socket closes with delegated calls outstanding,
`handleDisconnection` rejects every pending request with the
peer-disconnected error (each exactly once), empties the pending map, sends
nothing during the close, and — as long as no new peer connects — no
further traffic is ever written to any socket. -/
theorem C2_mid_flight_peer_loss (s : BState) (k : Nat) (t : List BEvent)
    (hInv : InvS s) (_hsock : s.socket = some k)
    (hnoconn : t.all (fun e => !(e matches .connect _)) = true)
    (hval : validFrom { s with socket := none, pending := [] } t = true) :
    step s .socketClosed
      = ({ s with socket := none, pending := [] },
         s.pending.map .rejectedDisconnected, []) ∧
    (∀ id, countSettles id (s.pending.map .rejectedDisconnected)
       = if id ∈ s.pending then 1 else 0) ∧
    sendsFrom { s with socket := none, pending := [] } t = [] := by
  refine ⟨rfl, fun id => countSettles_disc id s.pending hInv.1, ?_⟩
  exact (no_sends_without_socket t _ rfl hnoconn hval).1

/-- C2 witness: two outstanding calls, socket closes, peer later sends a
stale response and timers tick — nothing is sent. -/
theorem C2_witness :
    InvS { requestId := 2, pending := [1, 2], socket := some 7 } ∧
    countSettles 1 ([1, 2].map Settle.rejectedDisconnected) = 1 ∧
    countSettles 2 ([1, 2].map Settle.rejectedDisconnected) = 1 ∧
    sendsFrom { requestId := 2, pending := ([] : List Nat), socket := none }
      [.toolResponse 1 true, .heartbeatTick, .execTool "browser_click"] = [] := by
  have h := C2_mid_flight_peer_loss
    { requestId := 2, pending := [1, 2], socket := some 7 } 7
    [.toolResponse 1 true, .heartbeatTick, .execTool "browser_click"]
    ⟨by decide, by decide⟩ rfl (by decide) (by decide)
  refine ⟨⟨by decide, by decide⟩, ?_, ?_, h.2.2⟩
  · rw [h.2.1 1]
    decide
  · rw [h.2.1 2]
    decide

/-- Request ids handed out to the peer along a valid trace are exactly the
consecutive integers starting at the successor of the starting counter. -/
lemma allocated_range :
    ∀ (t : List BEvent) (s : BState), validFrom s t = true →
      allocatedIds (sendsFrom s t)
        = List.range' (s.requestId + 1)
            ((endState s t).requestId - s.requestId) ∧
      s.requestId ≤ (endState s t).requestId := by
  intro t
  induction t with
  | nil =>
    intro s _
    exact ⟨by simp [sendsFrom, run, allocatedIds, endState], le_rfl⟩
  | cons e es ih =>
    intro s hval
    rw [validFrom, Bool.and_eq_true] at hval
    obtain ⟨hen, hval⟩ := hval
    rw [sendsFrom_cons, endState_cons]
    have happ : ∀ l1 l2 : List BSend,
        allocatedIds (l1 ++ l2) = allocatedIds l1 ++ allocatedIds l2 := by
      intro l1 l2
      simp [allocatedIds, List.filterMap_append]
    cases e with
    | connect sock =>
      rw [show step s (.connect sock)
            = ({ s with socket := some sock }, [], [.welcome sock]) from rfl]
      simpa [happ, allocatedIds] using ih { s with socket := some sock } hval
    | socketClosed =>
      rw [show step s .socketClosed
            = ({ s with socket := none, pending := [] },
               s.pending.map .rejectedDisconnected, []) from rfl]
      simpa [happ, allocatedIds] using
        ih { s with socket := none, pending := [] } hval
    | execTool name =>
      rcases hsock : s.socket with _ | sock
      · rw [show step s (.execTool name) = (s, [], []) from by
              simp only [step, hsock]]
        simpa [happ, allocatedIds] using
          ih s (by simpa [step, hsock] using hval)
      · have hstep1 : (step s (.execTool name)).1
            = { s with
                requestId := s.requestId + 1,
                pending := s.pending ++ [s.requestId + 1] } := by
          simp only [step, hsock]
        have hsend : (step s (.execTool name)).2.2
            = [.toolRequest sock (s.requestId + 1) name] := by
          simp only [step, hsock]
        rw [hstep1] at hval
        rw [hstep1, hsend]
        obtain ⟨ihr, ihle⟩ := ih _ hval
        have hrid1 : ({ s with
            requestId := s.requestId + 1,
            pending := s.pending ++ [s.requestId + 1] } : BState).requestId
            = s.requestId + 1 := rfl
        rw [hrid1] at ihr ihle
        constructor
        · rw [happ, ihr]
          have hall : allocatedIds [.toolRequest sock (s.requestId + 1) name]
              = [s.requestId + 1] := rfl
          rw [hall]
          have hn : (endState ({ s with
                requestId := s.requestId + 1,
                pending := s.pending ++ [s.requestId + 1] }) es).requestId
                - s.requestId
              = ((endState ({ s with
                  requestId := s.requestId + 1,
                  pending := s.pending ++ [s.requestId + 1] }) es).requestId
                - (s.requestId + 1)) + 1 := by
            omega
          rw [hn, List.range'_succ]
          rfl
        · omega
    | toolResponse rid success =>
      by_cases hmem : rid ∈ s.pending
      · have hstep : (step s (.toolResponse rid success)).1
            = { s with pending := s.pending.erase rid } := by
          simp only [step, if_pos hmem]
        have hsend : (step s (.toolResponse rid success)).2.2 = [] := by
          simp only [step, if_pos hmem]
        rw [hstep] at hval ⊢
        rw [hsend]
        simpa [happ, allocatedIds] using ih _ hval
      · have hstep1 : (step s (.toolResponse rid success)).1 = s := by
          simp only [step, if_neg hmem]
        rw [hstep1] at hval
        rw [show (step s (.toolResponse rid success)) = (s, [], []) from by
              simp only [step, if_neg hmem]]
        simpa [happ, allocatedIds] using ih s hval
    | timerFire rid =>
      have hstep1 : (step s (.timerFire rid)).1
          = { s with pending := s.pending.erase rid } := rfl
      rw [hstep1] at hval
      rw [show step s (.timerFire rid)
            = ({ s with pending := s.pending.erase rid },
               [.rejectedTimeout rid], []) from rfl]
      simpa [happ, allocatedIds] using
        ih { s with pending := s.pending.erase rid } hval
    | heartbeatMsg =>
      rcases hsock : s.socket with _ | sock
      · rw [show step s .heartbeatMsg = (s, [], []) from by simp only [step, hsock]]
        simpa [happ, allocatedIds] using
          ih s (by simpa [step, hsock] using hval)
      · rw [show step s .heartbeatMsg = (s, [], [.heartbeatResponse sock]) from by
              simp only [step, hsock]]
        simpa [happ, allocatedIds] using
          ih s (by simpa [step, hsock] using hval)
    | heartbeatTick =>
      rcases hsock : s.socket with _ | sock
      · rw [show step s .heartbeatTick = (s, [], []) from by simp only [step, hsock]]
        simpa [happ, allocatedIds] using
          ih s (by simpa [step, hsock] using hval)
      · rw [show step s .heartbeatTick = (s, [], [.heartbeat sock]) from by
              simp only [step, hsock]]
        simpa [happ, allocatedIds] using
          ih s (by simpa [step, hsock] using hval)

lemma mem_range'_ge : ∀ (n a x : Nat), x ∈ List.range' a n → a ≤ x := by
  intro n
  induction n with
  | zero => intro a x h; simp [List.range'] at h
  | succ n ih =>
    intro a x h
    rw [List.range'] at h
    rcases List.mem_cons.mp h with rfl | h
    · exact le_rfl
    · exact le_trans (Nat.le_succ a) (ih (a + 1) x h)

lemma range'_pairwise : ∀ (n a : Nat), (List.range' a n).Pairwise (· < ·) := by
  intro n
  induction n with
  | zero => intro a; simp [List.range']
  | succ n ih =>
    intro a
    rw [List.range']
    exact List.Pairwise.cons
      (fun x hx => lt_of_lt_of_le (Nat.lt_succ_self a)
        (mem_range'_ge n (a + 1) x hx))
      (ih (a + 1))

/-- C10: the request ids carried by the `tool-request` messages of one
bridge instance are exactly `1, 2, 3, …` in order — each allocation is the
previous id plus one starting from 1 — hence strictly increasing over the
bridge lifetime, and an id is never reused even after its request
completed. -/
theorem C10_request_ids_strictly_increasing (t : List BEvent)
    (h : validFrom Bridge.initB t = true) :
    allocatedIds (sendsFrom Bridge.initB t)
      = List.range' 1 ((endState Bridge.initB t).requestId) ∧
    (allocatedIds (sendsFrom Bridge.initB t)).Pairwise (· < ·) ∧
    (allocatedIds (sendsFrom Bridge.initB t)).Nodup := by
  obtain ⟨hr, _⟩ := allocated_range t initB h
  have h0 : initB.requestId = 0 := rfl
  rw [h0] at hr
  simp only [Nat.zero_add, Nat.sub_zero] at hr
  refine ⟨hr, ?_, ?_⟩
  · rw [hr]
    exact range'_pairwise _ 1
  · rw [hr]
    exact List.Pairwise.imp (fun hab => Nat.ne_of_lt hab) (range'_pairwise _ 1)

/-- C10 witness: allocations across completions — the id after a completed
request is still fresh (3, not a reuse of 1). -/
theorem C10_witness :
    validFrom Bridge.initB
      [.connect 7, .execTool "browser_click", .execTool "browser_type",
       .toolResponse 1 true, .execTool "browser_hover"] = true ∧
    allocatedIds (sendsFrom Bridge.initB
      [.connect 7, .execTool "browser_click", .execTool "browser_type",
       .toolResponse 1 true, .execTool "browser_hover"]) = [1, 2, 3] :=
  ⟨by decide, by
    have h := (C10_request_ids_strictly_increasing
      [.connect 7, .execTool "browser_click", .execTool "browser_type",
       .toolResponse 1 true, .execTool "browser_hover"] (by decide)).1
    rw [h]
    decide⟩

end Bridge

/-! # Framing lemmas (claim C5) -/

lemma read_toLE4 (n : Nat) (h : n < 2 ^ 32) :
    readUInt32LE (n % 256) (n / 256 % 256) (n / 256 ^ 2 % 256) (n / 256 ^ 3 % 256) = n := by
  have h2 : (256 : Nat) ^ 2 = 65536 := by norm_num
  have h3 : (256 : Nat) ^ 3 = 16777216 := by norm_num
  have h32 : (2 : Nat) ^ 32 = 4294967296 := by norm_num
  simp only [readUInt32LE, h2, h3]
  omega

lemma processBuffer_cons4 (b0 b1 b2 b3 : Nat) (rest : List Nat) :
    processBuffer (b0 :: b1 :: b2 :: b3 :: rest) =
      if readUInt32LE b0 b1 b2 b3 ≤ rest.length then
        ((processBuffer (rest.drop (readUInt32LE b0 b1 b2 b3))).1,
         rest.take (readUInt32LE b0 b1 b2 b3) ::
           (processBuffer (rest.drop (readUInt32LE b0 b1 b2 b3))).2)
      else (b0 :: b1 :: b2 :: b3 :: rest, []) := by
  rw [processBuffer]

lemma processBuffer_short (buf : List Nat) (h : buf.length < 4) :
    processBuffer buf = (buf, []) := by
  match buf, h with
  | [], _ => rw [processBuffer]; intros; simp_all
  | [a], _ => rw [processBuffer]; intros; simp_all
  | [a, b], _ => rw [processBuffer]; intros; simp_all
  | [a, b, c], _ => rw [processBuffer]; intros; simp_all

/-- Incremental decoding composes: appending bytes to a buffer first drains
the frames already complete in the buffer, then continues from the stuck
leftover. -/
lemma processBuffer_append (c : List Nat) :
    ∀ (n : Nat) (buf : List Nat), buf.length ≤ n →
    processBuffer (buf ++ c) =
      ((processBuffer ((processBuffer buf).1 ++ c)).1,
       (processBuffer buf).2 ++ (processBuffer ((processBuffer buf).1 ++ c)).2) := by
  intro n
  induction n with
  | zero =>
    intro buf hb
    have : buf = [] := List.length_eq_zero.mp (Nat.le_zero.mp hb)
    subst this
    simp [processBuffer_short [] (by simp)]
  | succ n ih =>
    intro buf hb
    match buf with
    | [] => simp [processBuffer_short [] (by simp)]
    | [b0] => simp [processBuffer_short [b0] (by simp)]
    | [b0, b1] => simp [processBuffer_short [b0, b1] (by simp)]
    | [b0, b1, b2] => simp [processBuffer_short [b0, b1, b2] (by simp)]
    | b0 :: b1 :: b2 :: b3 :: rest =>
      by_cases hlen : readUInt32LE b0 b1 b2 b3 ≤ rest.length
      · have hlen' : readUInt32LE b0 b1 b2 b3 ≤ (rest ++ c).length := by
          simp; omega
        have htake : (rest ++ c).take (readUInt32LE b0 b1 b2 b3) =
            rest.take (readUInt32LE b0 b1 b2 b3) := by
          rw [List.take_append_eq_append_take,
              Nat.sub_eq_zero_of_le hlen, List.take_zero, List.append_nil]
        have hdrop : (rest ++ c).drop (readUInt32LE b0 b1 b2 b3) =
            rest.drop (readUInt32LE b0 b1 b2 b3) ++ c := by
          rw [List.drop_append_eq_append_drop,
              Nat.sub_eq_zero_of_le hlen, List.drop_zero]
        have hrec := ih (rest.drop (readUInt32LE b0 b1 b2 b3))
          (by simp at hb ⊢; omega)
        rw [show (b0 :: b1 :: b2 :: b3 :: rest) ++ c
              = b0 :: b1 :: b2 :: b3 :: (rest ++ c) by simp,
            processBuffer_cons4, if_pos hlen', htake, hdrop, hrec,
            processBuffer_cons4, if_pos hlen]
        simp
      · rw [processBuffer_cons4 b0 b1 b2 b3 rest, if_neg hlen]
        simp

/-- The leftover buffer of a decode run is stuck: re-running the loop on it
emits nothing. -/
lemma processBuffer_leftover (buf : List Nat) :
    processBuffer (processBuffer buf).1 = ((processBuffer buf).1, []) := by
  have h := processBuffer_append [] buf.length buf le_rfl
  simp only [List.append_nil] at h
  rw [Prod.ext_iff] at h
  obtain ⟨h1, h2⟩ := h
  have h3 : (processBuffer (processBuffer buf).1).2 = [] := by
    have hl := congrArg List.length h2
    simp only [List.length_append, Nat.self_eq_add_right] at hl
    exact List.length_eq_zero.mp hl
  rw [Prod.ext_iff]
  exact ⟨h1.symm, h3⟩

/-- Feeding chunks one at a time equals one decode run over the
concatenated bytes, provided the starting buffer is stuck. -/
lemma feedChunks_eq_processBuffer :
    ∀ (cs : List (List Nat)) (buf : List Nat),
      processBuffer buf = (buf, []) →
      feedChunks buf cs = processBuffer (buf ++ cs.flatten) := by
  intro cs
  induction cs with
  | nil =>
    intro buf hstuck
    simpa [feedChunks] using hstuck.symm
  | cons c cs ih =>
    intro buf hstuck
    have hstuck' : processBuffer (processBuffer (buf ++ c)).1
        = ((processBuffer (buf ++ c)).1, []) := processBuffer_leftover (buf ++ c)
    have happ := processBuffer_append cs.flatten (buf ++ c).length (buf ++ c) le_rfl
    calc feedChunks buf (c :: cs)
        = ((feedChunks (processBuffer (buf ++ c)).1 cs).1,
           (processBuffer (buf ++ c)).2 ++ (feedChunks (processBuffer (buf ++ c)).1 cs).2) := by
          rw [feedChunks]
      _ = ((processBuffer ((processBuffer (buf ++ c)).1 ++ cs.flatten)).1,
           (processBuffer (buf ++ c)).2 ++
             (processBuffer ((processBuffer (buf ++ c)).1 ++ cs.flatten)).2) := by
          rw [ih (processBuffer (buf ++ c)).1 hstuck']
      _ = processBuffer ((buf ++ c) ++ cs.flatten) := happ.symm
      _ = processBuffer (buf ++ (c :: cs).flatten) := by simp

/-- Decoding the encoded stream of a message list yields exactly that list
(each payload shorter than `2^32` bytes, the header's capacity). -/
lemma processBuffer_frames :
    ∀ (msgs : List (List Nat)), (∀ m ∈ msgs, m.length < 2 ^ 32) →
      processBuffer (msgs.map encodeFrame).flatten = ([], msgs) := by
  intro msgs
  induction msgs with
  | nil =>
    intro _
    exact processBuffer_short [] (by simp)
  | cons m ms ih =>
    intro hlen
    have hm : m.length < 2 ^ 32 := hlen m (by simp)
    have hread : readUInt32LE (m.length % 256) (m.length / 256 % 256)
        (m.length / 256 ^ 2 % 256) (m.length / 256 ^ 3 % 256) = m.length :=
      read_toLE4 m.length hm
    have hshape : ((m :: ms).map encodeFrame).flatten
        = m.length % 256 :: m.length / 256 % 256 :: m.length / 256 ^ 2 % 256 ::
          m.length / 256 ^ 3 % 256 :: (m ++ (ms.map encodeFrame).flatten) := by
      simp [encodeFrame, toLE4]
    rw [hshape, processBuffer_cons4, hread, if_pos (by simp),
        List.take_left, List.drop_left,
        ih (fun x hx => hlen x (by simp [hx]))]

/-- C5: `StdioTransport.send` frames a message as a 4-byte little-endian
length header followed by the payload bytes, and `handleStdinData` decoding
of any chunking of a framed stream (partial reads, several frames per read)
emits exactly the original messages, leaving an empty buffer. -/
theorem C5_framing_roundtrip (msgs chunks : List (List Nat))
    (hlen : ∀ m ∈ msgs, m.length < 2 ^ 32)
    (hchunks : chunks.flatten = (msgs.map encodeFrame).flatten) :
    (∀ p : List Nat, encodeFrame p = toLE4 p.length ++ p ∧ (toLE4 p.length).length = 4) ∧
    feedChunks [] chunks = ([], msgs) := by
  refine ⟨fun p => ⟨rfl, by simp [toLE4]⟩, ?_⟩
  rw [feedChunks_eq_processBuffer chunks [] (processBuffer_short [] (by simp)),
      List.nil_append, hchunks, processBuffer_frames msgs hlen]

/-! # Admission lemmas (claim C6) -/

namespace Admission

lemma sendsA_cons (s : AState) (e : AEvent) (es : List AEvent) :
    sendsA s (e :: es) = (stepA s e).2 ++ sendsA (stepA s e).1 es := rfl

lemma runA_cons (s : AState) (e : AEvent) (es : List AEvent) :
    (runA s (e :: es)).1 = (runA (stepA s e).1 es).1 := rfl

lemma rejectConn_ext (s : AState) (c : Nat) (r : RejectReason) :
    (rejectConn s c r).1.extensionSocket = s.extensionSocket := by
  unfold rejectConn
  split <;> rfl

lemma disconnectExtension_ext (s : AState) (x : String) :
    (disconnectExtension s x).1.extensionSocket = none ∨
    (disconnectExtension s x).1.extensionSocket = s.extensionSocket := by
  unfold disconnectExtension
  by_cases h : (s.activeExtensionId == some x) = true
  · left
    simp [h]
  · right
    simp [h]

lemma acceptConn_ext (s : AState) (c : Nat) (x : String) :
    (acceptConn s c x).1.extensionSocket = some c ∨
    (acceptConn s c x).1.extensionSocket = s.extensionSocket := by
  unfold acceptConn
  split
  · left; rfl
  · right; rfl

/-- Only a handshake message arriving from connection `cid` itself can ever
install `cid` as the admitted socket. -/
lemma stepA_preserves_not_admitted (s : AState) (cid : Nat) (e : AEvent)
    (hs : s.extensionSocket ≠ some cid) (he : isMsgFrom cid e = false) :
    (stepA s e).1.extensionSocket ≠ some cid := by
  cases e with
  | connAccept c => exact hs
  | timerFire c =>
    rw [show stepA s (.timerFire c) = rejectConn s c .handshakeTimeout from rfl,
        rejectConn_ext]
    exact hs
  | pendingClosed c => exact hs
  | pendingMsg c m =>
    have hc : c ≠ cid := by
      simpa [isMsgFrom] using he
    by_cases hp : c ∈ s.pendingConnections
    · rcases m with _ | msg
      · rw [show stepA s (.pendingMsg c none) = rejectConn s c .invalidFormat from by
              simp only [stepA, if_pos hp]]
        rw [rejectConn_ext]
        exact hs
      · by_cases ht : (msg.mtype == some (Value.vstr "handshake")) = true
        · rcases hv : validateHandshake msg with r | extId
          · rw [show stepA s (.pendingMsg c (some msg))
                  = rejectConn s c (.validationFailed r) from by
                simp only [stepA, if_pos hp, ht, if_true, hv]]
            rw [rejectConn_ext]
            exact hs
          · have hstep : (stepA s (.pendingMsg c (some msg))).1
                = (acceptConn (if s.registeredExtensions.contains extId then
                      (disconnectExtension s extId).1 else s) c extId).1 := by
              simp only [stepA, if_pos hp, ht, if_true, hv]
              split <;> rfl
            rw [hstep]
            rcases acceptConn_ext (if s.registeredExtensions.contains extId then
                (disconnectExtension s extId).1 else s) c extId with h | h <;> rw [h]
            · intro hcontra
              exact hc (Option.some.inj hcontra)
            · split
              · rcases disconnectExtension_ext s extId with h2 | h2 <;> rw [h2]
                · simp
                · exact hs
              · exact hs
        · rw [show stepA s (.pendingMsg c (some msg))
                = rejectConn s c .invalidSequence from by
              simp only [stepA, if_pos hp]
              rw [if_neg ht]]
          rw [rejectConn_ext]
          exact hs
    · rw [show stepA s (.pendingMsg c m) = (s, []) from by
            simp only [stepA, if_neg hp]]
      exact hs

/-- Along a trace with no message from `cid`, the admitted socket is never
`cid`. -/
lemma trace_not_admitted :
    ∀ (t : List AEvent) (s : AState) (cid : Nat),
      s.extensionSocket ≠ some cid →
      t.all (fun e => !(isMsgFrom cid e)) = true →
      (runA s t).1.extensionSocket ≠ some cid := by
  intro t
  induction t with
  | nil => intro s cid hs _; exact hs
  | cons e es ih =>
    intro s cid hs hall
    rw [List.all_cons, Bool.and_eq_true] at hall
    obtain ⟨he, hall⟩ := hall
    rw [runA_cons]
    exact ih (stepA s e).1 cid
      (stepA_preserves_not_admitted s cid e hs (by simpa using he)) hall

/-- When the handshake timer for a pending connection fires, the rejection
message and policy-violation close are written to that connection. -/
lemma timer_rejects :
    ∀ (t : List AEvent) (s : AState) (cid : Nat),
      validFromA s t = true → AEvent.timerFire cid ∈ t →
      ASend.connectionRejected cid .handshakeTimeout ∈ sendsA s t ∧
      ASend.closeSock cid 1008 ∈ sendsA s t := by
  intro t
  induction t with
  | nil => intro s cid _ hmem; exact absurd hmem (List.not_mem_nil _)
  | cons e es ih =>
    intro s cid hval hmem
    rw [validFromA, Bool.and_eq_true] at hval
    obtain ⟨hen, hval⟩ := hval
    rw [sendsA_cons]
    rcases List.mem_cons.mp hmem with rfl | hmem
    · have hp : cid ∈ s.pendingConnections := by
        simpa [enabledA] using hen
      have hsends : (stepA s (.timerFire cid)).2
          = [ASend.connectionRejected cid .handshakeTimeout,
             ASend.closeSock cid 1008] := by
        show (rejectConn s cid .handshakeTimeout).2 = _
        unfold rejectConn
        rw [if_pos hp]
      rw [hsends]
      constructor
      · exact List.mem_append_left _ (List.mem_cons_self _ _)
      · exact List.mem_append_left _
          (List.mem_cons_of_mem _ (List.mem_cons_self _ _))
    · obtain ⟨h1, h2⟩ := ih (stepA s e).1 cid hval hmem
      exact ⟨List.mem_append_right _ h1, List.mem_append_right _ h2⟩

/-- C6: a peer connection that sends nothing and whose handshake timer
fires is closed by the server with a `connection-rejected` message and the
policy-violation close code, and no Admitted Peer is ever created from that
connection at any point of the trace. -/
theorem C6_handshake_timeout (s : AState) (cid : Nat) (t : List AEvent)
    (hext : s.extensionSocket ≠ some cid)
    (hsilent : t.all (fun e => !(isMsgFrom cid e)) = true)
    (hval : validFromA s t = true)
    (htimer : AEvent.timerFire cid ∈ t) :
    (ASend.connectionRejected cid .handshakeTimeout ∈ sendsA s t ∧
     ASend.closeSock cid 1008 ∈ sendsA s t) ∧
    (∀ p q, t = p ++ q → (runA s p).1.extensionSocket ≠ some cid) := by
  refine ⟨timer_rejects t s cid hval htimer, ?_⟩
  intro p q hpq
  have hallp : p.all (fun e => !(isMsgFrom cid e)) = true := by
    subst hpq
    rw [List.all_append, Bool.and_eq_true] at hsilent
    exact hsilent.1
  exact trace_not_admitted p s cid hext hallp

/-- C6 witness: a fresh connection receives the challenge, stays silent,
the 3 s handshake timer fires — the server sends `connection-rejected` and
closes with code 1008, and the connection is never admitted. -/
theorem C6_witness :
    sendsA initA [.connAccept 7, .timerFire 7]
      = [.challenge 7, .connectionRejected 7 .handshakeTimeout,
         .closeSock 7 1008] ∧
    validFromA initA [.connAccept 7, .timerFire 7] = true ∧
    (ASend.connectionRejected 7 .handshakeTimeout
        ∈ sendsA initA [.connAccept 7, .timerFire 7] ∧
     ASend.closeSock 7 1008 ∈ sendsA initA [.connAccept 7, .timerFire 7]) ∧
    (runA initA [.connAccept 7, .timerFire 7]).1.extensionSocket ≠ some 7 := by
  have h := C6_handshake_timeout initA 7 [.connAccept 7, .timerFire 7]
    (by decide) (by decide) (by decide)
    (List.Mem.tail _ (List.Mem.head _))
  refine ⟨by decide, by decide, h.1, ?_⟩
  have h2 := h.2 [.connAccept 7, .timerFire 7] [] (by simp)
  simpa using h2

end Admission

/-! # Claim C9: shape of successful tool results -/

lemma truthyField_hasField (v : Value) (key : String)
    (h : v.truthyField key = true) : v.hasField key = true := by
  unfold Value.truthyField at h
  unfold Value.hasField
  rcases hg : v.getField key with _ | w
  · rw [hg] at h
    simp at h
  · rfl

lemma formatToolResult_content (r : Value) :
    (formatToolResult r).truthyField "content" = true := by
  unfold formatToolResult
  by_cases h : (r.truthy && r.truthyField "content") = true
  · rw [if_pos h]
    exact (Bool.and_eq_true _ _ |>.mp h).2
  · rw [if_neg h]
    simp [textContent, Value.truthyField, Value.getField, Value.truthy]

lemma handleToolCall_shape (ctx : ServerCtx) (env : LocalEnv)
    (bridgeCall : Except String Value × List ClientToolSend)
    (name : String) (argsOpt : Option Value) :
    (∃ e, (handleToolCall ctx env bridgeCall name argsOpt).1 = .error e)
    ∨ (∃ r, (handleToolCall ctx env bridgeCall name argsOpt).1
        = .ok (formatToolResult r)) := by
  obtain ⟨outcome, traffic⟩ := bridgeCall
  unfold handleToolCall
  rcases lookupTool name with _ | tool
  · exact .inl ⟨_, rfl⟩
  rcases argsOpt with _ | a
  · exact .inl ⟨_, rfl⟩
  rcases a with _ | b | q | s | elems | args
  · exact .inl ⟨_, rfl⟩
  · exact .inl ⟨_, rfl⟩
  · exact .inl ⟨_, rfl⟩
  · exact .inl ⟨_, rfl⟩
  · exact .inl ⟨_, rfl⟩
  dsimp only
  rcases validateToolArguments tool args with e | u
  · exact .inl ⟨_, rfl⟩
  dsimp only
  by_cases c1 : (toolRequiresExtension name && !ctx.extensionAvailable
      && !ctx.flexibleMode) = true
  · rw [if_pos c1]
    exact .inl ⟨_, rfl⟩
  rw [if_neg c1]
  by_cases c2 : (toolRequiresExtension name && ctx.extensionAvailable) = true
  · rw [if_pos c2]
    rcases outcome with e | r
    · exact .inl ⟨_, rfl⟩
    · exact .inr ⟨r, rfl⟩
  rw [if_neg c2]
  by_cases c3 : (!toolRequiresExtension name) = true
  · rw [if_pos c3]
    rcases executeLocalTool env name args with e | r
    · exact .inl ⟨_, rfl⟩
    · exact .inr ⟨r, rfl⟩
  rw [if_neg c3]
  by_cases c4 : ctx.flexibleMode = true
  · rw [if_pos c4]
    exact .inr ⟨_, rfl⟩
  rw [if_neg c4]
  exact .inl ⟨_, rfl⟩

/-- C9 counterexample: a raw result `{content: null}` *has* a `content`
field, yet it is not returned unchanged — `formatToolResult` tests JS
truthiness of `result.content`, so it re-wraps the object into a fresh text
content block. -/
theorem C9_counterexample :
    Value.hasField (.vobj [("content", .vnull)]) "content" = true ∧
    formatToolResult (.vobj [("content", .vnull)]) ≠ .vobj [("content", .vnull)] := by
  refine ⟨rfl, fun h => ?_⟩
  have h2 : formatToolResult (.vobj [("content", .vnull)])
      = textContent (jsonStringify (.vobj [("content", .vnull)])) := by
    unfold formatToolResult
    rw [if_neg (by decide)]
  rw [h2] at h
  simp [textContent] at h

/-- C9 (amended): every successful `tools/call` result carries a (truthy)
`content` field; a raw executor result is returned unchanged when it is
truthy with a *truthy* `content` property, a raw string is wrapped verbatim
as a text block, and any other non-qualifying result is wrapped as the text
of its JSON serialization. -/
theorem C9_result_envelope :
    (∀ (ctx : ServerCtx) (env : LocalEnv)
        (bridgeCall : Except String Value × List ClientToolSend)
        (name : String) (argsOpt : Option Value) (v : Value)
        (sends : List ClientToolSend),
        handleToolCall ctx env bridgeCall name argsOpt = (.ok v, sends) →
        v.hasField "content" = true ∧ v.truthyField "content" = true)
    ∧ (∀ r : Value, r.truthy = true → r.truthyField "content" = true →
        formatToolResult r = r)
    ∧ (∀ s : String, formatToolResult (.vstr s) = textContent s)
    ∧ (∀ r : Value, (r.truthy && r.truthyField "content") = false →
        formatToolResult r
          = textContent (match r with | .vstr s => s | _ => jsonStringify r)) := by
  refine ⟨?_, ?_, ?_, ?_⟩
  · intro ctx env bridgeCall name argsOpt v sends h
    obtain ⟨e, he⟩ | ⟨r, hr⟩ := handleToolCall_shape ctx env bridgeCall name argsOpt
    · rw [h] at he
      simp at he
    · rw [h] at hr
      simp only [Except.ok.injEq] at hr
      rw [hr]
      exact ⟨truthyField_hasField _ _ (formatToolResult_content r),
             formatToolResult_content r⟩
  · intro r h1 h2
    unfold formatToolResult
    rw [if_pos (by simp [h1, h2])]
  · intro s
    unfold formatToolResult
    rw [if_neg (by simp [Value.truthy, Value.truthyField, Value.getField])]
  · intro r h
    unfold formatToolResult
    rw [if_neg (by simp [h])]
    cases r <;> rfl

/-- C9 witness: a delegated call whose bridge result is the string `"done"`
(no `content` field) is wrapped verbatim into a text block, and the
returned value carries a truthy `content` field. -/
theorem C9_witness :
    handleToolCall { flexibleMode := false, extensionAvailable := true } {}
        (.ok (.vstr "done"), [.toolRequest "browser_snapshot" []])
        "browser_snapshot" (some (.vobj []))
      = (.ok (textContent "done"), [.toolRequest "browser_snapshot" []]) ∧
    Value.hasField (textContent "done") "content" = true ∧
    Value.truthyField (textContent "done") "content" = true :=
  ⟨rfl,
   C9_result_envelope.1 { flexibleMode := false, extensionAvailable := true } {}
     (.ok (.vstr "done"), [.toolRequest "browser_snapshot" []])
     "browser_snapshot" (some (.vobj [])) (textContent "done")
     [.toolRequest "browser_snapshot" []] rfl⟩

/-! # Claim C7: unknown method names -/

/-- C7: a valid request whose method is a string outside the ten dispatched
method names is answered with exactly one error envelope — code `-32603`,
message `Unknown method: <m>` — and nothing is sent to the peer. -/
theorem C7_unknown_method (ctx : ServerCtx) (env : LocalEnv)
    (bridgeCall : Except String Value × List ClientToolSend) (now : ℚ)
    (st : ServerState) (msg : RpcMessage) (m : String) (idv : Value)
    (hm : msg.method = some (.vstr m))
    (hnot : m ∉ dispatchedMethods)
    (hid : msg.id = some idv)
    (hvalid : isValidMCPMessage msg = true) :
    handleMessage ctx env bridgeCall now st msg
      = (st, [.errorResponse idv (-32603) (.unknownMethod m)], []) := by
  simp only [dispatchedMethods, List.mem_cons, List.not_mem_nil, or_false] at hnot
  push_neg at hnot
  obtain ⟨h1, h2, h3, h4, h5, h6, h7, h8, h9, h10⟩ := hnot
  simp [handleMessage, hvalid, handleMethod, hm, hid,
    h1, h2, h3, h4, h5, h6, h7, h8, h9, h10]

/-- C7 witness: method `foo/bar` with id 1. -/
theorem C7_witness :
    ({ jsonrpc := some (.vstr "2.0"), id := some (.vnum 1),
       method := some (.vstr "foo/bar") } : RpcMessage).method
        = some (.vstr "foo/bar") ∧
    "foo/bar" ∉ dispatchedMethods ∧
    handleMessage {} {} (.ok .vnull, []) 0 {}
        { jsonrpc := some (.vstr "2.0"), id := some (.vnum 1),
          method := some (.vstr "foo/bar") }
      = ({}, [.errorResponse (.vnum 1) (-32603) (.unknownMethod "foo/bar")], []) :=
  ⟨rfl, by decide,
   C7_unknown_method {} {} (.ok .vnull, []) 0 {}
     { jsonrpc := some (.vstr "2.0"), id := some (.vnum 1),
       method := some (.vstr "foo/bar") }
     "foo/bar" (.vnum 1) rfl (by decide) rfl rfl⟩

/-! # Claim C8: notifications never receive a response -/

/-- C8: a message with an undefined `id` never causes anything to be
written back over the client transport — both the success path (`if (id !==
undefined)`) and the catch path (`if (message.id !== undefined)`) skip the
send — so only id-carrying messages ever receive a result or error
envelope. -/
theorem C8_no_response_without_id (ctx : ServerCtx) (env : LocalEnv)
    (bridgeCall : Except String Value × List ClientToolSend) (now : ℚ)
    (st : ServerState) (msg : RpcMessage)
    (hid : msg.id = none) :
    (handleMessage ctx env bridgeCall now st msg).2.1 = [] := by
  unfold handleMessage
  split
  · rfl
  · split <;> simp [hid]

/-- C8 witness: a `notifications/initialized` message without an id. -/
theorem C8_witness :
    ({ jsonrpc := some (.vstr "2.0"),
       method := some (.vstr "notifications/initialized") } : RpcMessage).id = none ∧
    (handleMessage {} {} (.ok .vnull, []) 0 {}
        { jsonrpc := some (.vstr "2.0"),
          method := some (.vstr "notifications/initialized") }).2.1 = [] :=
  ⟨rfl,
   C8_no_response_without_id {} {} (.ok .vnull, []) 0 {}
     { jsonrpc := some (.vstr "2.0"),
       method := some (.vstr "notifications/initialized") } rfl⟩

/-! # Claim C4: numeric bounds in operation-call validation -/

/-- C4 counterexample: a `tools/call` dispatch of `browser_wait` with
`time = 31`, above the declared maximum 30, is **not** rejected with an
out-of-range error before execution — `MCPServer.handleToolCall` validates
with the server's own `validateToolArguments`, which checks only primitive
types, so the operation executes (the 31 s wait runs) and succeeds. -/
theorem C4_counterexample :
    handleToolCall {} {} (.ok .vnull, []) "browser_wait"
        (some (.vobj [("time", .vnum 31)]))
      = (.ok (textContent "Waited for 31 seconds"), []) := by
  rfl

/-- C4 (amended): the catalog validator `validateToolArgs` from
`ToolRegistry.js` treats `browser_wait`'s `[0.1, 30]` bounds inclusively —
values at the bounds are accepted, values beyond them are rejected with the
corresponding out-of-range error — while `MCPServer.validateToolArguments`,
the validator actually run on the `tools/call` path, accepts every numeric
`time`, so out-of-range values are not rejected before execution. -/
theorem C4_bounds_inclusive (q : ℚ) :
    validateToolArgs "browser_wait" [("time", .vnum q)]
      = (if q < 1/10 then .error (.belowMinimum "time" (1/10))
         else if 30 < q then .error (.aboveMaximum "time" 30)
         else .ok ())
    ∧ (lookupTool "browser_wait").map
        (fun t => validateToolArguments t [("time", .vnum q)]) = some (.ok ()) := by
  have hl : lookupTool "browser_wait"
      = some { name := "browser_wait",
               description := "Wait for a specified time in seconds",
               inputSchema :=
                 { properties :=
                     [("time", { type := some "number",
                                 description := "The time to wait in seconds",
                                 minimum := some (1/10),
                                 maximum := some 30 })],
                   required := ["time"] } } := rfl
  constructor
  · simp [validateToolArgs, hl, checkRequired, checkProps, hasKey, lookupProp,
      validateProperty, Value.jsTypeof, Bind.bind, Except.bind,
      Pure.pure, Except.pure]
    split_ifs <;> simp_all [Pure.pure, Except.pure]
  · simp [hl, validateToolArguments, checkRequired, hasKey, serverCheckTypes,
      lookupProp, Value.jsTypeof, Bind.bind, Except.bind, Pure.pure, Except.pure]

/-! # Claim C3: cold call without peer -/

/-- C3: a `tools/call` of a delegated (extension-requiring) tool with valid
arguments while the extension is unavailable: strict mode fails with the
peer-required error (`Tool <name> requires Chrome extension, but extension
is not connected`, rethrown as a tool-execution failure), flexible mode
returns a successful informational content block; in both modes nothing is
sent toward any peer socket. -/
theorem C3_cold_call (flex : Bool) (name : String) (args : List (String × Value))
    (env : LocalEnv) (bridgeCall : Except String Value × List ClientToolSend)
    (hdeleg : toolRequiresExtension name = true)
    (hvalid : (lookupTool name).map (fun t => validateToolArguments t args)
        = some (.ok ())) :
    handleToolCall { flexibleMode := flex, extensionAvailable := false }
        env bridgeCall name (some (.vobj args))
      = (if flex then (.ok (textContent (flexibleModeText name)), [])
         else (.error (.toolExecutionFailed (.extensionRequired name)), [])) := by
  rcases hl : lookupTool name with _ | tool
  · rw [hl] at hvalid
    simp at hvalid
  · rw [hl] at hvalid
    simp only [Option.map_some', Option.some.injEq] at hvalid
    simp only [handleToolCall, hl, hvalid, hdeleg]
    cases flex <;>
      simp [formatToolResult, textContent, Value.truthy, Value.truthyField,
        Value.getField]

/-- C3 witness: flexible-mode cold call of `browser_navigate`. -/
theorem C3_witness :
    toolRequiresExtension "browser_navigate" = true ∧
    (lookupTool "browser_navigate").map (fun t => validateToolArguments t
        [("url", .vstr "https://example.com")]) = some (.ok ()) ∧
    handleToolCall { flexibleMode := true, extensionAvailable := false } {} (.ok .vnull, [])
        "browser_navigate" (some (.vobj [("url", .vstr "https://example.com")]))
      = (.ok (textContent (flexibleModeText "browser_navigate")), []) :=
  ⟨rfl, rfl, by
    have h := C3_cold_call true "browser_navigate"
      [("url", .vstr "https://example.com")] {} (.ok .vnull, []) rfl rfl
    simpa using h⟩

/-- C5 witness: two messages, framed and re-chunked across uneven reads
(header split across chunks, a chunk boundary inside a payload, and a full
frame inside the last chunk). -/
theorem C5_witness :
    (∀ m ∈ [[104, 105], [33]], List.length m < 2 ^ 32) ∧
    ([[2, 0], [0, 0, 104], [105], [1, 0, 0, 0, 33]].flatten
      = ([[104, 105], [33]].map encodeFrame).flatten) ∧
    feedChunks [] [[2, 0], [0, 0, 104], [105], [1, 0, 0, 0, 33]] = ([], [[104, 105], [33]]) :=
  ⟨by decide, by decide,
   (C5_framing_roundtrip [[104, 105], [33]] [[2, 0], [0, 0, 104], [105], [1, 0, 0, 0, 33]]
     (by decide) (by decide)).2⟩

end BrowseAgent
